import Mathlib

/-!
Verification of the Dateiexperte sort engine (`file_sorter.py`,
`config_models.py`) through a shallow embedding in Lean.

Modelling conventions:
* Paths are POSIX-style strings.  `os.path.join dir name` is modelled as
  `dir ++ "/" ++ name` (the second argument is always a relative name in the
  code under study).  `os.path.abspath` is the identity: all directory
  arguments in the theorems are assumed to be given as absolute, normalised
  paths, which is exactly the situation the code produces for itself via
  `os.path.abspath`.
* Python `str.lower` is modelled as an ASCII character map, `str.strip`
  as trimming ASCII whitespace on both ends, `str.startswith` as a list
  prefix test.  `os.path.splitext` is modelled faithfully including its
  leading-dot rule (`".bashrc"` has no extension, `"foo."` has extension
  `"."`).
* Python `set` values are modelled as lists with membership semantics;
  `dict` values as association lists where insertion of an existing key
  overwrites in place (preserving position), exactly like CPython dicts.
* The filesystem visible to `os.path.exists` is modelled as a finite list
  of existing paths.
-/

/-- Whitespace characters recognised by Python `str.strip()` (ASCII part). -/
def pyIsSpace (c : Char) : Bool :=
  c = ' ' || c = '\t' || c = '\n' || c = '\x0b' || c = '\x0c' || c = '\r'

/-- Uppercase/lowercase ASCII letter pairs, used to model `str.lower`. -/
def lowerPairs : List (Char × Char) :=
  [('A','a'), ('B','b'), ('C','c'), ('D','d'), ('E','e'), ('F','f'),
   ('G','g'), ('H','h'), ('I','i'), ('J','j'), ('K','k'), ('L','l'),
   ('M','m'), ('N','n'), ('O','o'), ('P','p'), ('Q','q'), ('R','r'),
   ('S','s'), ('T','t'), ('U','u'), ('V','v'), ('W','w'), ('X','x'),
   ('Y','y'), ('Z','z')]

/-- Lower-case a single character (ASCII model of Python `str.lower`). -/
def lowerChar (c : Char) : Char :=
  match lowerPairs.find? (fun p => p.1 = c) with
  | some p => p.2
  | none => c

/-- Model of Python `s.lower()`. -/
def pyLower (s : String) : String := ⟨s.data.map lowerChar⟩

/-- Strip `pyIsSpace` characters from both ends of a character list. -/
def stripData (l : List Char) : List Char :=
  ((l.dropWhile pyIsSpace).reverse.dropWhile pyIsSpace).reverse

/-- Model of Python `s.strip()`. -/
def pyStrip (s : String) : String := ⟨stripData s.data⟩

/-- Model of Python `s.startswith(pre)`. -/
def pyStartsWith (s pre : String) : Bool := pre.data.isPrefixOf s.data

/-- Model of POSIX `os.path.join(dir, name)` for a relative `name`. -/
def joinPath (dir name : String) : String := dir ++ "/" ++ name

/-- Model of POSIX `os.path.basename`: everything after the last slash. -/
def basename (s : String) : String :=
  ⟨(s.data.reverse.takeWhile (fun c => ¬ (c = '/'))).reverse⟩

/-- Core of `os.path.splitext` on a separator-free file name: split at the
last dot, unless every character before that dot is itself a dot (leading
dots are part of the root, so `".bashrc"` has no extension). -/
def splitextData (l : List Char) : List Char × List Char :=
  match l.reverse.findIdx? (fun c => c = '.') with
  | none => (l, [])
  | some k =>
    let dotIdx := l.length - 1 - k
    if (l.take dotIdx).all (fun c => c = '.') then (l, [])
    else (l.take dotIdx, l.drop dotIdx)

/-- Model of `os.path.splitext` on a file name without separators. -/
def splitext (s : String) : String × String :=
  let p := splitextData s.data
  (⟨p.1⟩, ⟨p.2⟩)

/-- Model of Python `s.lstrip(".")`. -/
def lstripDot (s : String) : String := ⟨s.data.dropWhile (fun c => c = '.')⟩

/-- Insert-or-overwrite into an association list, keeping the position of an
existing key; this is exactly CPython `dict` assignment. -/
def dinsert {α : Type} (k : String) (v : α) : List (String × α) → List (String × α)
  | [] => [(k, v)]
  | p :: t => if p.1 = k then (k, v) :: t else p :: dinsert k v t

/-- First binding of a key in an association list (CPython `dict` lookup on
dicts built with `dinsert`, whose keys are unique). -/
def dfind? {α : Type} (k : String) : List (String × α) → Option α
  | [] => none
  | p :: t => if p.1 = k then some p.2 else dfind? k t

/-- Model of Python `dict.get(k, default)`. -/
def dgetD {α : Type} (m : List (String × α)) (k : String) (dflt : α) : α :=
  match dfind? k m with
  | some v => v
  | none => dflt

/-- Add an element to a set modelled as a duplicate-free list. -/
def sinsert (x : String) (s : List String) : List String :=
  if x ∈ s then s else s ++ [x]

/-- Validated configuration of the sorter (`SorterConfig` in
`config_models.py`).  Sets are modelled as lists with membership semantics,
dicts as association lists in insertion order. -/
structure SorterConfig where
  categories : List (String × List String)
  default_category : String
  excluded_extensions : List String
  excluded_folders : List String

/-- Model of `SorterConfig.build_extension_map`: flatten every
`(extension, category)` pair, lower-casing extensions that start with a dot;
a later category overwrites an earlier one for a duplicate extension. -/
def build_extension_map (cfg : SorterConfig) : List (String × String) :=
  cfg.categories.foldl
    (fun m p => p.2.foldl
      (fun m e => if pyStartsWith e "." then dinsert (pyLower e) p.1 m else m) m)
    []

/-- Lower-cased extension of a path, as computed at the top of
`FileSorter.categorize_file` (lines 68–70 of `file_sorter.py`). -/
def extLowerOf (path : String) : String :=
  pyLower (splitext (basename path)).2

/-- Model of `FileSorter.categorize_file`: `none` models the Python result
`(None, None)` for an excluded extension; otherwise
`some (category_name, relative_path)`. -/
def categorize_file (cfg : SorterConfig) (path : String) : Option (String × String) :=
  let extension_lower := extLowerOf path
  if extension_lower ∈ cfg.excluded_extensions then none
  else
    let category_name := dgetD (build_extension_map cfg) extension_lower cfg.default_category
    let relative_path :=
      if category_name ≠ cfg.default_category ∧ extension_lower ≠ "" then
        let type_folder := lstripDot extension_lower
        if type_folder ≠ "" then joinPath category_name type_folder
        else category_name
      else category_name
    some (category_name, relative_path)

example : splitext "foo.txt" = ("foo", ".txt") := by decide
example : splitext ".bashrc" = (".bashrc", "") := by decide
example : splitext "foo." = ("foo", ".") := by decide
example : splitext "a.b.c" = ("a.b", ".c") := by decide
example : splitext "noext" = ("noext", "") := by decide
example : basename "/a/b/c.txt" = "c.txt" := by decide
example : pyLower "Ab.TXT" = "ab.txt" := by decide

example :
    categorize_file ⟨[("Bilder", [".jpg"])], "_Unsortiert", [], []⟩ "/s/x.JPG"
      = some ("Bilder", "Bilder/jpg") := by decide

example :
    categorize_file ⟨[("Bilder", [".jpg"])], "_Unsortiert", [".jpg"], []⟩ "/s/x.JPG"
      = none := by decide

example :
    categorize_file ⟨[("Bilder", [".jpg"])], "_Unsortiert", [], []⟩ "/s/noext"
      = some ("_Unsortiert", "_Unsortiert") := by decide

/-! ### Unique target paths (`FileSorter.get_unique_target_path`) -/

/-- Candidate path probed by `get_unique_target_path` for counter `c`:
`os.path.join(target_dir, f"{name}({c}){ext}")`. -/
def mkCand (dir name ext : String) (c : Nat) : String :=
  joinPath dir (name ++ "(" ++ Nat.repr c ++ ")" ++ ext)

/-- Length of the longest path in the modelled filesystem. -/
def maxLen (fs : List String) : Nat := fs.foldr (fun s m => max s.length m) 0

/-- Probing loop of `get_unique_target_path`: try counters `c`, `c+1`, …
until a candidate does not exist.  The Python `while` loop is unbounded;
the fuel argument is a modelling device, and `guptFuel` below is proved
large enough that the fallback at fuel `0` is never reached. -/
def guptGo (fs : List String) (dir name ext : String) : Nat → Nat → String
  | 0, c => mkCand dir name ext c
  | fuel+1, c =>
    if mkCand dir name ext c ∈ fs then guptGo fs dir name ext fuel (c+1)
    else mkCand dir name ext c

/-- Fuel that provably suffices for the probing loop on filesystem `fs`. -/
def guptFuel (fs : List String) : Nat := 10 ^ maxLen fs

/-- Model of `FileSorter.get_unique_target_path`: return `dir/filename` when
free, otherwise probe `name(1).ext`, `name(2).ext`, … sequentially. -/
def get_unique_target_path (fs : List String) (target_dir filename : String) : String :=
  let target_path := joinPath target_dir filename
  if target_path ∈ fs then
    guptGo fs target_dir (splitext filename).1 (splitext filename).2 (guptFuel fs) 1
  else target_path

example :
    get_unique_target_path ["d/a.txt", "d/a(1).txt"] "d" "a.txt" = "d/a(2).txt" := by
  decide

example : get_unique_target_path ["d/b.txt"] "d" "a.txt" = "d/a.txt" := by decide

/-- Digit-count bound for `Nat.toDigitsCore`: with sufficient fuel the
output extends the accumulator by `d ≥ 1` characters with `n < 10 ^ d`. -/
theorem toDigitsCore_length_spec :
    ∀ (f n : Nat) (acc : List Char), n < f →
      ∃ d, 0 < d ∧ (Nat.toDigitsCore 10 f n acc).length = acc.length + d ∧ n < 10 ^ d := by
  intro f
  induction f with
  | zero => intro n acc h; omega
  | succ f ih =>
    intro n acc h
    rw [Nat.toDigitsCore]
    by_cases h0 : n / 10 = 0
    · refine ⟨1, by omega, ?_, ?_⟩
      · simp [h0]
      · have := Nat.div_add_mod n 10
        have hm : n % 10 < 10 := Nat.mod_lt _ (by omega)
        omega
    · have hlt : n / 10 < n := Nat.div_lt_self (by omega) (by omega)
      have hf : n / 10 < f := by omega
      obtain ⟨d, hd, hlen, hsz⟩ := ih (n / 10) (Nat.digitChar (n % 10) :: acc) hf
      simp only [h0, if_false]
      refine ⟨d + 1, by omega, ?_, ?_⟩
      · simp at hlen; omega
      · have := Nat.div_add_mod n 10
        have hm : n % 10 < 10 := Nat.mod_lt _ (by omega)
        have : n < (n / 10 + 1) * 10 := by omega
        calc n < (n / 10 + 1) * 10 := this
          _ ≤ 10 ^ d * 10 := by
              have : n / 10 + 1 ≤ 10 ^ d := hsz
              exact Nat.mul_le_mul_right 10 this
          _ = 10 ^ (d + 1) := by rw [Nat.pow_succ]

/-- Decimal representation of `n` has `d ≥ 1` digits with `n < 10 ^ d`. -/
theorem repr_length_spec (n : Nat) :
    ∃ d, 0 < d ∧ (Nat.repr n).length = d ∧ n < 10 ^ d := by
  have h : (Nat.repr n).length = (Nat.toDigitsCore 10 (n + 1) n []).length := rfl
  obtain ⟨d, hd, hlen, hsz⟩ := toDigitsCore_length_spec (n + 1) n [] (by omega)
  exact ⟨d, hd, by simpa [h] using hlen, hsz⟩

/-- Paths stored in the filesystem are no longer than `maxLen`. -/
theorem length_le_maxLen {fs : List String} {s : String} (h : s ∈ fs) :
    s.length ≤ maxLen fs := by
  induction fs with
  | nil => cases h
  | cons a t ih =>
    have hm : maxLen (a :: t) = max a.length (maxLen t) := rfl
    rw [hm]
    rcases List.mem_cons.mp h with rfl | hmem
    · exact Nat.le_max_left _ _
    · exact le_trans (ih hmem) (Nat.le_max_right _ _)

/-- Length of a probe candidate, in terms of the counter's digit count. -/
theorem mkCand_length (dir name ext : String) (c : Nat) :
    (mkCand dir name ext c).length =
      dir.length + name.length + ext.length + (Nat.repr c).length + 3 := by
  simp [mkCand, joinPath, String.length_append]
  have : ("/" : String).length = 1 := rfl
  have h2 : ("(" : String).length = 1 := rfl
  have h3 : (")" : String).length = 1 := rfl
  omega

/-- A candidate stored in `fs` has a counter below `10 ^ maxLen fs`. -/
theorem counter_lt_of_mem {fs : List String} {dir name ext : String} {c : Nat}
    (h : mkCand dir name ext c ∈ fs) : c < 10 ^ maxLen fs := by
  have hle := length_le_maxLen h
  rw [mkCand_length] at hle
  obtain ⟨d, hd, hlen, hsz⟩ := repr_length_spec c
  have hdm : d ≤ maxLen fs := by omega
  calc c < 10 ^ d := hsz
    _ ≤ 10 ^ maxLen fs := Nat.pow_le_pow_right (by omega) hdm

/-- The candidate with counter `10 ^ maxLen fs` is always free: its decimal
counter alone is longer than any stored path. -/
theorem cand_maxlen_free (fs : List String) (dir name ext : String) :
    mkCand dir name ext (10 ^ maxLen fs) ∉ fs := by
  intro h
  have := counter_lt_of_mem h
  omega

/-- If some candidate within the remaining fuel is free, the probing loop
returns a free path. -/
theorem guptGo_not_mem {fs : List String} {dir name ext : String} :
    ∀ (fuel c : Nat), (∃ j, j < fuel ∧ mkCand dir name ext (c + j) ∉ fs) →
      guptGo fs dir name ext fuel c ∉ fs := by
  intro fuel
  induction fuel with
  | zero => intro c ⟨j, hj, _⟩; omega
  | succ fuel ih =>
    intro c ⟨j, hj, hfree⟩
    rw [guptGo]
    by_cases hc : mkCand dir name ext c ∈ fs
    · simp only [hc, if_true]
      apply ih
      have hj0 : j ≠ 0 := by rintro rfl; simp at hfree; exact hfree hc
      refine ⟨j - 1, by omega, ?_⟩
      have heq : c + 1 + (j - 1) = c + j := by omega
      rw [heq]
      exact hfree
    · rw [if_neg hc]
      exact hc

/-- The probing loop returns the first free counter: if the first `i`
candidates from `c` exist and candidate `c + i` is free (with `i` within
fuel), the result is candidate `c + i`. -/
theorem guptGo_least {fs : List String} {dir name ext : String} :
    ∀ (fuel c i : Nat), i < fuel →
      (∀ j, j < i → mkCand dir name ext (c + j) ∈ fs) →
      mkCand dir name ext (c + i) ∉ fs →
      guptGo fs dir name ext fuel c = mkCand dir name ext (c + i) := by
  intro fuel
  induction fuel with
  | zero => intro c i hi; omega
  | succ fuel ih =>
    intro c i hi hmem hfree
    rw [guptGo]
    by_cases hc : mkCand dir name ext c ∈ fs
    · have hi0 : i ≠ 0 := by rintro rfl; simp at hfree; exact hfree hc
      simp only [hc, if_true]
      have harg : mkCand dir name ext (c + 1 + (i - 1)) ∉ fs := by
        have heq : c + 1 + (i - 1) = c + i := by omega
        rw [heq]; exact hfree
      have hrec := ih (c + 1) (i - 1) (by omega)
        (fun j hj => by
          have heq : c + 1 + j = c + (j + 1) := by omega
          rw [heq]; exact hmem (j + 1) (by omega))
        harg
      rw [hrec]; congr 1; omega
    · have hi0 : i = 0 := by
        by_contra hne
        exact hc (by simpa using hmem 0 (by omega))
      simp [hc, hi0]

/-- Claim C4: `get_unique_target_path(dir, name.ext)` returns a path that
does not exist at call time; it returns `dir/name.ext` unmodified when that
path is free, and when `dir` contains `name.ext` together with `name(1).ext`
through `name(N).ext` (and `name(N+1).ext` is free) it returns
`dir/name(N+1).ext`, probing counters sequentially from 1. -/
theorem gupt_unfold (fs : List String) (dir fn : String) :
    get_unique_target_path fs dir fn =
      if joinPath dir fn ∈ fs then
        guptGo fs dir (splitext fn).1 (splitext fn).2 (guptFuel fs) 1
      else joinPath dir fn := rfl

theorem claim_C4_unique_target_path :
    (∀ (fs : List String) (dir fn : String),
      get_unique_target_path fs dir fn ∉ fs) ∧
    (∀ (fs : List String) (dir fn : String),
      joinPath dir fn ∉ fs → get_unique_target_path fs dir fn = joinPath dir fn) ∧
    (∀ (fs : List String) (dir fn : String) (N : Nat),
      joinPath dir fn ∈ fs →
      (∀ i ∈ Finset.Icc 1 N, mkCand dir (splitext fn).1 (splitext fn).2 i ∈ fs) →
      mkCand dir (splitext fn).1 (splitext fn).2 (N + 1) ∉ fs →
      get_unique_target_path fs dir fn
        = mkCand dir (splitext fn).1 (splitext fn).2 (N + 1)) := by
  refine ⟨?_, ?_, ?_⟩
  · intro fs dir fn
    rw [gupt_unfold]
    by_cases h : joinPath dir fn ∈ fs
    · rw [if_pos h]
      apply guptGo_not_mem
      refine ⟨10 ^ maxLen fs - 1, ?_, ?_⟩
      · have h1 : 0 < 10 ^ maxLen fs := Nat.pos_pow_of_pos _ (by omega)
        have h2 : guptFuel fs = 10 ^ maxLen fs := rfl
        omega
      · have heq : 1 + (10 ^ maxLen fs - 1) = 10 ^ maxLen fs := by
          have : 0 < 10 ^ maxLen fs := Nat.pos_pow_of_pos _ (by omega)
          omega
        rw [heq]
        exact cand_maxlen_free fs dir _ _
    · rw [if_neg h]
      exact h
  · intro fs dir fn h
    rw [gupt_unfold, if_neg h]
  · intro fs dir fn N h1 h2 h3
    rw [gupt_unfold, if_pos h1]
    have hNfuel : N < guptFuel fs := by
      rcases Nat.eq_zero_or_pos N with rfl | hN
      · exact Nat.pos_pow_of_pos _ (by omega)
      · have : mkCand dir (splitext fn).1 (splitext fn).2 N ∈ fs :=
          h2 N (by simp [Finset.mem_Icc]; omega)
        exact counter_lt_of_mem this
    have := guptGo_least (guptFuel fs) 1 N hNfuel
      (fun j hj => h2 (1 + j) (by simp [Finset.mem_Icc]; omega))
      (by have heq : (1 : Nat) + N = N + 1 := by omega
          rw [heq]; exact h3)
    rw [this]
    congr 1
    omega

/-- Witness for C4 at a concrete three-way collision and at a free path. -/
theorem claim_C4_unique_target_path_witness :
    (joinPath "d" "a.txt" ∈ ["d/a.txt", "d/a(1).txt", "d/a(2).txt"]) ∧
    (∀ i ∈ Finset.Icc 1 2,
      mkCand "d" (splitext "a.txt").1 (splitext "a.txt").2 i
        ∈ ["d/a.txt", "d/a(1).txt", "d/a(2).txt"]) ∧
    (mkCand "d" (splitext "a.txt").1 (splitext "a.txt").2 3
      ∉ ["d/a.txt", "d/a(1).txt", "d/a(2).txt"]) ∧
    get_unique_target_path ["d/a.txt", "d/a(1).txt", "d/a(2).txt"] "d" "a.txt"
      = mkCand "d" (splitext "a.txt").1 (splitext "a.txt").2 3 ∧
    get_unique_target_path ["d/b.txt"] "d" "a.txt" = joinPath "d" "a.txt" :=
  ⟨by decide, by decide, by decide,
   claim_C4_unique_target_path.2.2 _ "d" "a.txt" 2 (by decide) (by decide) (by decide),
   claim_C4_unique_target_path.2.1 _ "d" "a.txt" (by decide)⟩

/-! ### The per-file pipeline (`FileSorter.process_file`, `FileSorter.sort_files`)

The filesystem effects of one iteration are modelled by an environment
oracle `Nat → FileEnv`: for the `i`-th discovered file, `(envs i).fs` is
the set of paths answering `os.path.exists` during that iteration's
`get_unique_target_path` call, and `(envs i).outcome` is what the
`try` block of `process_file` (the `os.makedirs` plus `shutil.copy2` /
`shutil.move` calls) does: succeed, raise `OSError e`, or raise some other
exception `e`.  An unknown operation type raises `ValueError` inside the
same `try` and is caught by the generic `except Exception` handler. -/

/-- Result counters of a sorting run (`SortResult` dataclass). -/
structure SortResult where
  processed : Nat
  skipped : Nat
  errors : Nat
  total : Nat
  deriving DecidableEq, Repr

/-- One file operation (`FileOperation` dataclass). -/
structure FileOperation where
  source_path : String
  target_path : String
  category : String
  operation_type : String

/-- Outcome of the filesystem calls inside `process_file`'s `try` block. -/
inductive OpOutcome where
  | ok
  | osErr (e : String)
  | exn (e : String)

/-- Environment seen by one loop iteration of `sort_files`. -/
structure FileEnv where
  fs : List String
  outcome : OpOutcome

/-- Log line of `process_file`'s `except OSError` handler. -/
def oserrLog (op src category e : String) : String :=
  "FEHLER bei " ++ op ++ ": " ++ basename src ++ " -> " ++ category ++ ": " ++ e

/-- Log line of `process_file`'s generic `except Exception` handler. -/
def exnLog (src e : String) : String :=
  "Unerwarteter Fehler: " ++ basename src ++ ": " ++ e

/-- Model of `FileSorter.process_file`: returns the success flag and the
log lines emitted.  `OSError` and unexpected exceptions from the
filesystem calls are caught and logged; an operation type other than
`"copy"` or `"move"` raises `ValueError`, which the generic handler
catches and logs, so `False` is returned and nothing propagates. -/
def process_file (outcome : OpOutcome) (fop : FileOperation) : Bool × List String :=
  match outcome with
  | .osErr e => (false, [oserrLog fop.operation_type fop.source_path fop.category e])
  | .exn e => (false, [exnLog fop.source_path e])
  | .ok =>
    if fop.operation_type = "copy" then (true, [])
    else if fop.operation_type = "move" then (true, [])
    else (false, [exnLog fop.source_path ("Unknown operation type: " ++ fop.operation_type)])

/-- Success flag of `process_file`, which depends only on the operation
type and the filesystem outcome. -/
def procOk (op : String) (outcome : OpOutcome) : Bool :=
  match outcome with
  | .ok => op = "copy" || op = "move"
  | _ => false

theorem process_file_fst (outcome : OpOutcome) (fop : FileOperation) :
    (process_file outcome fop).1 = procOk fop.operation_type outcome := by
  cases outcome <;> simp [process_file, procOk]
  by_cases h1 : fop.operation_type = "copy" <;>
    by_cases h2 : fop.operation_type = "move" <;>
      simp [h1, h2]

/-- Rename notice logged when the collision-free name differs (line 181 of
`file_sorter.py`). -/
def renameNotice (target_path relative_path : String) : String :=
  "Datei existiert bereits, benenne um: " ++ basename target_path ++ " -> " ++ relative_path

/-- Trace of a whole `sort_files` run: final counters, log lines, and the
sequence of arguments passed to the progress callback. -/
structure RunTrace where
  result : SortResult
  log : List String
  progress : List Nat

/-- Loop body of `FileSorter.sort_files` (lines 165–199): `i` is the
0-based index of the current file, `acc` the counters so far. -/
def sortFilesGo (cfg : SorterConfig) (target_dir op : String) (envs : Nat → FileEnv) :
    List String → Nat → SortResult → List String → List Nat → RunTrace
  | [], _, acc, log, prog => ⟨acc, log, prog⟩
  | src :: rest, i, acc, log, prog =>
    match categorize_file cfg src with
    | none =>
        sortFilesGo cfg target_dir op envs rest (i + 1)
          { acc with skipped := acc.skipped + 1 } log (prog ++ [i + 1])
    | some cr =>
        let filename := basename src
        let category_dir := joinPath target_dir cr.2
        let target_path := get_unique_target_path (envs i).fs category_dir filename
        let rlog := if basename target_path ≠ filename
          then [renameNotice target_path cr.2] else []
        let pr := process_file (envs i).outcome ⟨src, target_path, cr.2, op⟩
        let acc' := if pr.1 then { acc with processed := acc.processed + 1 }
                    else { acc with errors := acc.errors + 1 }
        sortFilesGo cfg target_dir op envs rest (i + 1) acc' (log ++ rlog ++ pr.2) (prog ++ [i + 1])

/-- Model of `FileSorter.sort_files` given the discovered file list
`all_files` (the value of `discover_files`): runs the per-file loop and
returns the trace.  The progress list records `progress_callback(i + 1)`
in call order. -/
def sort_files (cfg : SorterConfig) (target_dir op : String) (envs : Nat → FileEnv)
    (all_files : List String) : RunTrace :=
  let discoverLog := ["Suche Dateien...", Nat.repr all_files.length ++ " Dateien gefunden."]
  if all_files.length = 0 then
    ⟨⟨0, 0, 0, 0⟩, discoverLog ++ ["Keine Dateien zum Sortieren gefunden."], []⟩
  else
    sortFilesGo cfg target_dir op envs all_files 0 ⟨0, 0, 0, all_files.length⟩ discoverLog []

/-- Per-file contribution to the three counters: skipped files contribute
`(0,1,0)`, successfully processed files `(1,0,0)`, failed files `(0,0,1)`. -/
def stepCounts (cfg : SorterConfig) (op : String) (envs : Nat → FileEnv)
    (i : Nat) (src : String) : Nat × Nat × Nat :=
  match categorize_file cfg src with
  | none => (0, 1, 0)
  | some _ => if procOk op (envs i).outcome then (1, 0, 0) else (0, 0, 1)

/-- Counter contributions of a file list starting at index `i`. -/
def runCounts (cfg : SorterConfig) (op : String) (envs : Nat → FileEnv) :
    Nat → List String → Nat × Nat × Nat
  | _, [] => (0, 0, 0)
  | i, src :: rest =>
    let s := stepCounts cfg op envs i src
    let r := runCounts cfg op envs (i + 1) rest
    (s.1 + r.1, s.2.1 + r.2.1, s.2.2 + r.2.2)

/-- Log lines emitted while handling one file. -/
def stepLog (cfg : SorterConfig) (target_dir op : String) (envs : Nat → FileEnv)
    (i : Nat) (src : String) : List String :=
  match categorize_file cfg src with
  | none => []
  | some cr =>
    let filename := basename src
    let target_path := get_unique_target_path (envs i).fs (joinPath target_dir cr.2) filename
    (if basename target_path ≠ filename then [renameNotice target_path cr.2] else []) ++
      (process_file (envs i).outcome ⟨src, target_path, cr.2, op⟩).2

/-- Log lines emitted by the loop over a file list starting at index `i`. -/
def runLog (cfg : SorterConfig) (target_dir op : String) (envs : Nat → FileEnv) :
    Nat → List String → List String
  | _, [] => []
  | i, src :: rest =>
    stepLog cfg target_dir op envs i src ++ runLog cfg target_dir op envs (i + 1) rest

/-- Counter decomposition of the `sort_files` loop: each counter of the
final result is the initial counter plus the per-file contributions, and
`total` is never touched by the loop. -/
theorem sortFilesGo_result (cfg : SorterConfig) (target_dir op : String) (envs : Nat → FileEnv) :
    ∀ (files : List String) (i : Nat) (acc : SortResult) (log : List String) (prog : List Nat),
      (sortFilesGo cfg target_dir op envs files i acc log prog).result.processed
          = acc.processed + (runCounts cfg op envs i files).1 ∧
      (sortFilesGo cfg target_dir op envs files i acc log prog).result.skipped
          = acc.skipped + (runCounts cfg op envs i files).2.1 ∧
      (sortFilesGo cfg target_dir op envs files i acc log prog).result.errors
          = acc.errors + (runCounts cfg op envs i files).2.2 ∧
      (sortFilesGo cfg target_dir op envs files i acc log prog).result.total = acc.total := by
  intro files
  induction files with
  | nil => intro i acc log prog; simp [sortFilesGo, runCounts]
  | cons src rest ih =>
    intro i acc log prog
    rw [sortFilesGo]
    cases hcat : categorize_file cfg src with
    | none =>
      obtain ⟨h1, h2, h3, h4⟩ :=
        ih (i + 1) { acc with skipped := acc.skipped + 1 } log (prog ++ [i + 1])
      simp only [runCounts, stepCounts, hcat]
      refine ⟨?_, ?_, ?_, ?_⟩ <;> (simp [h1, h2, h3, h4]; try omega)
    | some cr =>
      dsimp only
      rw [process_file_fst]
      by_cases hok : procOk op (envs i).outcome
      · rw [if_pos hok]
        simp only [runCounts, stepCounts, hcat]
        rw [if_pos hok]
        refine ⟨?_, ?_, ?_, ?_⟩
        · rw [(ih _ _ _ _).1]; simp; omega
        · rw [(ih _ _ _ _).2.1]; simp
        · rw [(ih _ _ _ _).2.2.1]; simp
        · rw [(ih _ _ _ _).2.2.2]
      · rw [if_neg hok]
        simp only [runCounts, stepCounts, hcat]
        rw [if_neg hok]
        refine ⟨?_, ?_, ?_, ?_⟩
        · rw [(ih _ _ _ _).1]; simp
        · rw [(ih _ _ _ _).2.1]; simp
        · rw [(ih _ _ _ _).2.2.1]; simp; omega
        · rw [(ih _ _ _ _).2.2.2]

/-- Log decomposition of the `sort_files` loop. -/
theorem sortFilesGo_log (cfg : SorterConfig) (target_dir op : String) (envs : Nat → FileEnv) :
    ∀ (files : List String) (i : Nat) (acc : SortResult) (log : List String) (prog : List Nat),
      (sortFilesGo cfg target_dir op envs files i acc log prog).log
          = log ++ runLog cfg target_dir op envs i files := by
  intro files
  induction files with
  | nil => intro i acc log prog; simp [sortFilesGo, runLog]
  | cons src rest ih =>
    intro i acc log prog
    rw [sortFilesGo]
    cases hcat : categorize_file cfg src with
    | none =>
      rw [ih]
      simp [runLog, stepLog, hcat]
    | some cr =>
      dsimp only
      rw [ih]
      simp only [runLog, stepLog, hcat]
      simp

/-- Progress decomposition of the `sort_files` loop: the callback argument
sequence extends `prog` by `i+1, i+2, …, i+len`. -/
theorem sortFilesGo_progress (cfg : SorterConfig) (target_dir op : String) (envs : Nat → FileEnv) :
    ∀ (files : List String) (i : Nat) (acc : SortResult) (log : List String) (prog : List Nat),
      (sortFilesGo cfg target_dir op envs files i acc log prog).progress
          = prog ++ List.range' (i + 1) files.length := by
  intro files
  induction files with
  | nil => intro i acc log prog; simp [sortFilesGo]
  | cons src rest ih =>
    intro i acc log prog
    rw [sortFilesGo]
    cases hcat : categorize_file cfg src with
    | none =>
      rw [ih]
      simp only [List.length_cons]
      rw [List.range'_succ]
      simp
    | some cr =>
      dsimp only
      rw [ih]
      simp only [List.length_cons]
      rw [List.range'_succ]
      simp

theorem sort_files_unfold (cfg : SorterConfig) (target_dir op : String)
    (envs : Nat → FileEnv) (all_files : List String) :
    sort_files cfg target_dir op envs all_files =
      if all_files.length = 0 then
        ⟨⟨0, 0, 0, 0⟩,
         ["Suche Dateien...", Nat.repr all_files.length ++ " Dateien gefunden.",
          "Keine Dateien zum Sortieren gefunden."], []⟩
      else
        sortFilesGo cfg target_dir op envs all_files 0 ⟨0, 0, 0, all_files.length⟩
          ["Suche Dateien...", Nat.repr all_files.length ++ " Dateien gefunden."] [] := by
  rw [sort_files]
  by_cases h : all_files.length = 0 <;> simp [h]

/-- Each file contributes exactly one to exactly one of the three counters. -/
theorem runCounts_sum (cfg : SorterConfig) (op : String) (envs : Nat → FileEnv) :
    ∀ (files : List String) (i : Nat),
      (runCounts cfg op envs i files).1 + (runCounts cfg op envs i files).2.1
        + (runCounts cfg op envs i files).2.2 = files.length := by
  intro files
  induction files with
  | nil => intro i; simp [runCounts]
  | cons src rest ih =>
    intro i
    have h := ih (i + 1)
    simp only [runCounts, stepCounts, List.length_cons]
    cases hcat : categorize_file cfg src with
    | none => simp; omega
    | some cr =>
      by_cases hok : procOk op (envs i).outcome <;> (simp [hok]; try omega)

/-- The skipped counter counts exactly the files whose categorization is
the excluded sentinel. -/
theorem runCounts_skipped (cfg : SorterConfig) (op : String) (envs : Nat → FileEnv) :
    ∀ (files : List String) (i : Nat),
      (runCounts cfg op envs i files).2.1
        = files.countP (fun f => (categorize_file cfg f).isNone) := by
  intro files
  induction files with
  | nil => intro i; simp [runCounts]
  | cons src rest ih =>
    intro i
    have h := ih (i + 1)
    simp only [runCounts, stepCounts, List.countP_cons]
    cases hcat : categorize_file cfg src with
    | none => simp [h]; omega
    | some cr =>
      by_cases hok : procOk op (envs i).outcome <;> (simp [hok, h]; try omega)

/-- Processed and errored files together are exactly the non-excluded
files: an excluded file is never counted as processed or as an error. -/
theorem runCounts_proc_err (cfg : SorterConfig) (op : String) (envs : Nat → FileEnv) :
    ∀ (files : List String) (i : Nat),
      (runCounts cfg op envs i files).1 + (runCounts cfg op envs i files).2.2
        = files.countP (fun f => (categorize_file cfg f).isSome) := by
  intro files
  induction files with
  | nil => intro i; simp [runCounts]
  | cons src rest ih =>
    intro i
    have h := ih (i + 1)
    simp only [runCounts, stepCounts, List.countP_cons]
    cases hcat : categorize_file cfg src with
    | none => simp [h]; try omega
    | some cr =>
      by_cases hok : procOk op (envs i).outcome <;> (simp [hok, h]; try omega)

theorem runCounts_append (cfg : SorterConfig) (op : String) (envs : Nat → FileEnv) :
    ∀ (l1 l2 : List String) (i : Nat),
      (runCounts cfg op envs i (l1 ++ l2)).1
          = (runCounts cfg op envs i l1).1 + (runCounts cfg op envs (i + l1.length) l2).1 ∧
      (runCounts cfg op envs i (l1 ++ l2)).2.1
          = (runCounts cfg op envs i l1).2.1 + (runCounts cfg op envs (i + l1.length) l2).2.1 ∧
      (runCounts cfg op envs i (l1 ++ l2)).2.2
          = (runCounts cfg op envs i l1).2.2 + (runCounts cfg op envs (i + l1.length) l2).2.2 := by
  intro l1
  induction l1 with
  | nil => intro l2 i; simp [runCounts]
  | cons src rest ih =>
    intro l2 i
    obtain ⟨h1, h2, h3⟩ := ih l2 (i + 1)
    simp only [List.cons_append, runCounts, List.length_cons]
    have heq : i + 1 + rest.length = i + (rest.length + 1) := by omega
    refine ⟨?_, ?_, ?_⟩ <;> simp [h1, h2, h3, heq] <;> omega

theorem runLog_append (cfg : SorterConfig) (target_dir op : String) (envs : Nat → FileEnv) :
    ∀ (l1 l2 : List String) (i : Nat),
      runLog cfg target_dir op envs i (l1 ++ l2)
        = runLog cfg target_dir op envs i l1
          ++ runLog cfg target_dir op envs (i + l1.length) l2 := by
  intro l1
  induction l1 with
  | nil => intro l2 i; simp [runLog]
  | cons src rest ih =>
    intro l2 i
    simp only [List.cons_append, runLog, List.length_cons, List.append_eq]
    rw [ih l2 (i + 1)]
    have heq : i + 1 + rest.length = i + (rest.length + 1) := by omega
    rw [heq]
    simp [List.append_assoc]

/-- Claim C9: every `SortResult` returned by `sort_files` satisfies
`processed + skipped + errors = total`, and `total` is the number of
discovered files; each discovered file lands in exactly one counter. -/
theorem claim_C9_counter_partition (cfg : SorterConfig) (target_dir op : String)
    (envs : Nat → FileEnv) (files : List String) :
    (sort_files cfg target_dir op envs files).result.processed
      + (sort_files cfg target_dir op envs files).result.skipped
      + (sort_files cfg target_dir op envs files).result.errors
      = (sort_files cfg target_dir op envs files).result.total
    ∧ (sort_files cfg target_dir op envs files).result.total = files.length := by
  rw [sort_files_unfold]
  by_cases h : files.length = 0
  · simp [h]
  · rw [if_neg h]
    obtain ⟨h1, h2, h3, h4⟩ := sortFilesGo_result cfg target_dir op envs files 0
      ⟨0, 0, 0, files.length⟩
      ["Suche Dateien...", Nat.repr files.length ++ " Dateien gefunden."] []
    have hsum := runCounts_sum cfg op envs files 0
    rw [h1, h2, h3, h4]
    dsimp only
    omega

/-- Claim C5: with a progress callback, `sort_files` invokes the callback
exactly once per discovered file with the running total
`processed + skipped + errors` after that file, the arguments are strictly
increasing, and the last argument is `total`. -/
theorem claim_C5_progress_callbacks (cfg : SorterConfig) (target_dir op : String)
    (envs : Nat → FileEnv) (files : List String) :
    (sort_files cfg target_dir op envs files).progress.length
        = (sort_files cfg target_dir op envs files).result.total ∧
    (∀ (k : Nat) (hk : k < (sort_files cfg target_dir op envs files).progress.length),
      (sort_files cfg target_dir op envs files).progress.get ⟨k, hk⟩ =
        (sort_files cfg target_dir op envs (files.take (k + 1))).result.processed
        + (sort_files cfg target_dir op envs (files.take (k + 1))).result.skipped
        + (sort_files cfg target_dir op envs (files.take (k + 1))).result.errors) ∧
    (sort_files cfg target_dir op envs files).progress.Pairwise (· < ·) ∧
    (files.length ≠ 0 →
      (sort_files cfg target_dir op envs files).progress.getLast?
        = some (sort_files cfg target_dir op envs files).result.total) := by
  by_cases h : files.length = 0
  · rw [sort_files_unfold, if_pos h]
    refine ⟨rfl, ?_, ?_, ?_⟩
    · intro k hk; simp at hk
    · simp
    · intro hne; exact absurd h hne
  · have hprog : (sort_files cfg target_dir op envs files).progress
        = List.range' 1 files.length := by
      rw [sort_files_unfold, if_neg h, sortFilesGo_progress]
      simp
    have htot : (sort_files cfg target_dir op envs files).result.total = files.length := by
      rw [sort_files_unfold, if_neg h]
      exact (sortFilesGo_result cfg target_dir op envs files 0 _ _ _).2.2.2
    refine ⟨?_, ?_, ?_, ?_⟩
    · rw [hprog, htot]; simp
    · intro k hk
      have hk' : k < files.length := by
        have := hk; rwa [hprog, List.length_range'] at this
      have htk : (files.take (k + 1)).length = k + 1 := by
        rw [List.length_take]; omega
      have htk0 : (files.take (k + 1)).length ≠ 0 := by omega
      have hsum : (sort_files cfg target_dir op envs (files.take (k + 1))).result.processed
          + (sort_files cfg target_dir op envs (files.take (k + 1))).result.skipped
          + (sort_files cfg target_dir op envs (files.take (k + 1))).result.errors
          = k + 1 := by
        rw [sort_files_unfold, if_neg htk0]
        obtain ⟨h1, h2, h3, _⟩ :=
          sortFilesGo_result cfg target_dir op envs (files.take (k + 1)) 0
            ⟨0, 0, 0, (files.take (k + 1)).length⟩
            ["Suche Dateien...",
             Nat.repr (files.take (k + 1)).length ++ " Dateien gefunden."] []
        have hs := runCounts_sum cfg op envs (files.take (k + 1)) 0
        rw [h1, h2, h3]
        dsimp only
        omega
      rw [hsum]
      have : (sort_files cfg target_dir op envs files).progress.get ⟨k, hk⟩
          = 1 + 1 * k := by
        have hgl := @List.getElem_range' 1 files.length 1 k
          (by rw [List.length_range']; exact hk')
        rw [List.get_eq_getElem]
        conv in (sort_files cfg target_dir op envs files).progress => rw [hprog]
        exact hgl
      rw [this]
      omega
    · rw [hprog]
      exact List.pairwise_lt_range' 1 files.length
    · intro _
      obtain ⟨m, hm⟩ : ∃ m, files.length = m + 1 := ⟨files.length - 1, by omega⟩
      rw [hprog, htot, hm, List.range'_1_concat, List.getLast?_concat]
      congr 1
      omega

/-- Claim C2: a file whose lower-cased extension is in
`excluded_extensions` is categorized as the excluded sentinel regardless of
the extension map, and `sort_files` counts exactly the sentinel-categorized
files as skipped while processed/errors only ever count non-excluded
files. -/
theorem claim_C2_exclusion_precedence (cfg : SorterConfig) (path : String)
    (h : extLowerOf path ∈ cfg.excluded_extensions) :
    categorize_file cfg path = none ∧
    (∀ (target_dir op : String) (envs : Nat → FileEnv) (files : List String),
      (sort_files cfg target_dir op envs files).result.skipped
        = files.countP (fun f => (categorize_file cfg f).isNone) ∧
      (sort_files cfg target_dir op envs files).result.processed
          + (sort_files cfg target_dir op envs files).result.errors
        = files.countP (fun f => (categorize_file cfg f).isSome)) := by
  constructor
  · simp [categorize_file, h]
  · intro target_dir op envs files
    rw [sort_files_unfold]
    by_cases h0 : files.length = 0
    · have hnil : files = [] := List.eq_nil_of_length_eq_zero h0
      subst hnil
      simp
    · rw [if_neg h0]
      obtain ⟨h1, h2, h3, _⟩ := sortFilesGo_result cfg target_dir op envs files 0
        ⟨0, 0, 0, files.length⟩
        ["Suche Dateien...", Nat.repr files.length ++ " Dateien gefunden."] []
      have hsk := runCounts_skipped cfg op envs files 0
      have hpe := runCounts_proc_err cfg op envs files 0
      rw [h1, h2, h3]
      dsimp only
      constructor
      · rw [← hsk]; omega
      · rw [← hpe]; omega

/-- Sample configuration used by the concrete witnesses. -/
def cfgW : SorterConfig := ⟨[("Bilder", [".jpg"])], "_Unsortiert", [".tmp"], []⟩

/-- Sample environment oracle used by the concrete witnesses. -/
def envsW : Nat → FileEnv := fun _ => ⟨[], .ok⟩

/-- Witness for C5 at a concrete two-file run. -/
theorem claim_C5_progress_callbacks_witness :
    ((["/s/a.jpg", "/s/b.tmp"] : List String).length ≠ 0) ∧
    ((sort_files cfgW "/t" "copy" envsW ["/s/a.jpg", "/s/b.tmp"]).progress.getLast?
      = some (sort_files cfgW "/t" "copy" envsW ["/s/a.jpg", "/s/b.tmp"]).result.total) ∧
    (0 : Nat) < (sort_files cfgW "/t" "copy" envsW ["/s/a.jpg", "/s/b.tmp"]).progress.length ∧
    (sort_files cfgW "/t" "copy" envsW ["/s/a.jpg", "/s/b.tmp"]).progress.get ⟨0, by decide⟩ =
      (sort_files cfgW "/t" "copy" envsW (["/s/a.jpg", "/s/b.tmp"].take 1)).result.processed
      + (sort_files cfgW "/t" "copy" envsW (["/s/a.jpg", "/s/b.tmp"].take 1)).result.skipped
      + (sort_files cfgW "/t" "copy" envsW (["/s/a.jpg", "/s/b.tmp"].take 1)).result.errors :=
  ⟨by decide,
   (claim_C5_progress_callbacks cfgW "/t" "copy" envsW ["/s/a.jpg", "/s/b.tmp"]).2.2.2
     (by decide),
   by decide,
   (claim_C5_progress_callbacks cfgW "/t" "copy" envsW ["/s/a.jpg", "/s/b.tmp"]).2.1 0
     (by decide)⟩

/-- Witness for C2 at a concrete excluded file. -/
theorem claim_C2_exclusion_precedence_witness :
    (extLowerOf "/s/b.TMP" ∈ cfgW.excluded_extensions) ∧
    categorize_file cfgW "/s/b.TMP" = none ∧
    (sort_files cfgW "/t" "copy" envsW ["/s/a.jpg", "/s/b.TMP"]).result.skipped
      = (["/s/a.jpg", "/s/b.TMP"] : List String).countP
          (fun f => (categorize_file cfgW f).isNone) :=
  ⟨by decide,
   (claim_C2_exclusion_precedence cfgW "/s/b.TMP" (by decide)).1,
   ((claim_C2_exclusion_precedence cfgW "/s/b.TMP" (by decide)).2 "/t" "copy" envsW
     ["/s/a.jpg", "/s/b.TMP"]).1⟩

theorem procOk_false {op : String} (h1 : op ≠ "copy") (h2 : op ≠ "move")
    (outcome : OpOutcome) : procOk op outcome = false := by
  cases outcome <;> simp [procOk, h1, h2]

theorem runCounts_processed_zero (cfg : SorterConfig) (op : String) (envs : Nat → FileEnv)
    (hop : ∀ outcome, procOk op outcome = false) :
    ∀ (files : List String) (i : Nat), (runCounts cfg op envs i files).1 = 0 := by
  intro files
  induction files with
  | nil => intro i; simp [runCounts]
  | cons src rest ih =>
    intro i
    have h := ih (i + 1)
    simp only [runCounts, stepCounts]
    cases hcat : categorize_file cfg src with
    | none => simp [h]
    | some cr => simp [hop, h]

/-- Claim C10: invoking `sort_files` with an operation other than `copy`
or `move` propagates no exception: `process_file` returns `False` for every
file (the internal `ValueError` is caught and logged by its own generic
handler), so every non-excluded file is counted as an error and the run
still returns a complete `SortResult`. -/
theorem claim_C10_unknown_operation (cfg : SorterConfig) (target_dir op : String)
    (envs : Nat → FileEnv) (files : List String)
    (h1 : op ≠ "copy") (h2 : op ≠ "move") :
    (∀ (outcome : OpOutcome) (fop : FileOperation),
        fop.operation_type = op → (process_file outcome fop).1 = false) ∧
    (∀ fop : FileOperation, fop.operation_type = op →
        process_file .ok fop
          = (false, [exnLog fop.source_path ("Unknown operation type: " ++ op)])) ∧
    (sort_files cfg target_dir op envs files).result.processed = 0 ∧
    (sort_files cfg target_dir op envs files).result.errors
      = files.countP (fun f => (categorize_file cfg f).isSome) ∧
    (sort_files cfg target_dir op envs files).result.skipped
      = files.countP (fun f => (categorize_file cfg f).isNone) ∧
    (sort_files cfg target_dir op envs files).result.total = files.length := by
  have hop : ∀ outcome, procOk op outcome = false := procOk_false h1 h2
  refine ⟨?_, ?_, ?_⟩
  · intro outcome fop hfop
    rw [process_file_fst, hfop]
    exact hop outcome
  · intro fop hfop
    simp [process_file, hfop, h1, h2]
  · rw [sort_files_unfold]
    by_cases h0 : files.length = 0
    · have hnil : files = [] := List.eq_nil_of_length_eq_zero h0
      subst hnil
      simp
    · rw [if_neg h0]
      obtain ⟨ha, hb, hc, hd⟩ := sortFilesGo_result cfg target_dir op envs files 0
        ⟨0, 0, 0, files.length⟩
        ["Suche Dateien...", Nat.repr files.length ++ " Dateien gefunden."] []
      have hz := runCounts_processed_zero cfg op envs hop files 0
      have hpe := runCounts_proc_err cfg op envs files 0
      have hsk := runCounts_skipped cfg op envs files 0
      rw [ha, hb, hc, hd]
      dsimp only
      refine ⟨by omega, by omega, by rw [← hsk]; omega, rfl⟩

/-- Witness for C10 with the unknown operation string `"delete"`. -/
theorem claim_C10_unknown_operation_witness :
    ("delete" ≠ "copy") ∧ ("delete" ≠ "move") ∧
    (sort_files cfgW "/t" "delete" envsW ["/s/a.jpg"]).result.errors
      = (["/s/a.jpg"] : List String).countP (fun f => (categorize_file cfgW f).isSome) ∧
    (sort_files cfgW "/t" "delete" envsW ["/s/a.jpg"]).result.processed = 0 :=
  ⟨by decide, by decide,
   (claim_C10_unknown_operation cfgW "/t" "delete" envsW ["/s/a.jpg"]
     (by decide) (by decide)).2.2.2.1,
   (claim_C10_unknown_operation cfgW "/t" "delete" envsW ["/s/a.jpg"]
     (by decide) (by decide)).2.2.1⟩

/-- Claim C8: an `OSError` during one file's copy/move is recovered
per-file: that file adds exactly one to the errors counter (on top of the
error counts of the files before and after it, which are still processed),
the handler logs a message naming the file and the error, and the run
completes with a full `SortResult` instead of propagating the exception. -/
theorem claim_C8_per_file_error_recovery (cfg : SorterConfig) (target_dir op : String)
    (envs : Nat → FileEnv) (pre suf : List String) (f e : String) (cr : String × String)
    (_hop : op = "copy" ∨ op = "move")
    (hcat : categorize_file cfg f = some cr)
    (henv : (envs pre.length).outcome = .osErr e) :
    (sort_files cfg target_dir op envs (pre ++ f :: suf)).result.errors
        = (runCounts cfg op envs 0 pre).2.2 + 1
          + (runCounts cfg op envs (pre.length + 1) suf).2.2 ∧
    oserrLog op f cr.2 e ∈ (sort_files cfg target_dir op envs (pre ++ f :: suf)).log ∧
    (sort_files cfg target_dir op envs (pre ++ f :: suf)).result.processed
      + (sort_files cfg target_dir op envs (pre ++ f :: suf)).result.skipped
      + (sort_files cfg target_dir op envs (pre ++ f :: suf)).result.errors
      = (sort_files cfg target_dir op envs (pre ++ f :: suf)).result.total ∧
    (sort_files cfg target_dir op envs (pre ++ f :: suf)).result.total
      = (pre ++ f :: suf).length := by
  have h0 : (pre ++ f :: suf).length ≠ 0 := by simp
  rw [sort_files_unfold, if_neg h0]
  obtain ⟨ha, hb, hc, hd⟩ := sortFilesGo_result cfg target_dir op envs (pre ++ f :: suf) 0
    ⟨0, 0, 0, (pre ++ f :: suf).length⟩
    ["Suche Dateien...", Nat.repr (pre ++ f :: suf).length ++ " Dateien gefunden."] []
  have hlog := sortFilesGo_log cfg target_dir op envs (pre ++ f :: suf) 0
    ⟨0, 0, 0, (pre ++ f :: suf).length⟩
    ["Suche Dateien...", Nat.repr (pre ++ f :: suf).length ++ " Dateien gefunden."] []
  have hstep : stepCounts cfg op envs pre.length f = (0, 0, 1) := by
    simp [stepCounts, hcat, henv, procOk]
  have hstepl : oserrLog op f cr.2 e ∈ stepLog cfg target_dir op envs pre.length f := by
    simp only [stepLog, hcat]
    apply List.mem_append_right
    rw [henv]
    simp [process_file]
  have hrc : (runCounts cfg op envs 0 (pre ++ f :: suf)).2.2
      = (runCounts cfg op envs 0 pre).2.2 + 1
        + (runCounts cfg op envs (pre.length + 1) suf).2.2 := by
    obtain ⟨_, _, h3⟩ := runCounts_append cfg op envs pre (f :: suf) 0
    rw [h3]
    simp only [Nat.zero_add, runCounts, hstep]
    omega
  have hl : oserrLog op f cr.2 e ∈ runLog cfg target_dir op envs 0 (pre ++ f :: suf) := by
    rw [runLog_append]
    apply List.mem_append_right
    simp only [Nat.zero_add, runLog]
    exact List.mem_append_left _ hstepl
  refine ⟨?_, ?_, ?_, ?_⟩
  · rw [hc]
    dsimp only
    omega
  · rw [hlog]
    exact List.mem_append_right _ hl
  · have hsum := runCounts_sum cfg op envs (pre ++ f :: suf) 0
    rw [ha, hb, hc, hd]
    dsimp only
    omega
  · rw [hd]

/-- Environment oracle for the C8 witness: the first file's copy raises
an `OSError`, every later file succeeds. -/
def envsW8 : Nat → FileEnv := fun i =>
  if i = 0 then ⟨[], .osErr "disk full"⟩ else ⟨[], .ok⟩

/-- Witness for C8: a two-file run whose first copy fails with `OSError`. -/
theorem claim_C8_per_file_error_recovery_witness :
    (("copy" : String) = "copy" ∨ ("copy" : String) = "move") ∧
    categorize_file cfgW "/s/a.jpg" = some ("Bilder", "Bilder/jpg") ∧
    (envsW8 (List.length ([] : List String))).outcome = OpOutcome.osErr "disk full" ∧
    oserrLog "copy" "/s/a.jpg" "Bilder/jpg" "disk full"
      ∈ (sort_files cfgW "/t" "copy" envsW8 ([] ++ "/s/a.jpg" :: ["/s/c.jpg"])).log ∧
    (sort_files cfgW "/t" "copy" envsW8 ([] ++ "/s/a.jpg" :: ["/s/c.jpg"])).result.errors
      = (runCounts cfgW "copy" envsW8 0 []).2.2 + 1
        + (runCounts cfgW "copy" envsW8 (List.length ([] : List String) + 1) ["/s/c.jpg"]).2.2 :=
  ⟨Or.inl rfl, by decide, rfl,
   (claim_C8_per_file_error_recovery cfgW "/t" "copy" envsW8 [] ["/s/c.jpg"]
     "/s/a.jpg" "disk full" ("Bilder", "Bilder/jpg") (Or.inl rfl) (by decide) rfl).2.1,
   (claim_C8_per_file_error_recovery cfgW "/t" "copy" envsW8 [] ["/s/c.jpg"]
     "/s/a.jpg" "disk full" ("Bilder", "Bilder/jpg") (Or.inl rfl) (by decide) rfl).1⟩

/-! ### Destination layout (`FileSorter.categorize_file`, claim C3) -/

/-- Destination-subtree rule exactly as claim C3 states it: the subtree is
`category/extension-without-dot` whenever the resolved category differs
from the default category and the lower-cased extension is non-empty, and
the bare category in every other case. -/
def claimRelPath (cfg : SorterConfig) (category extLower : String) : String :=
  if category ≠ cfg.default_category ∧ extLower ≠ "" then
    joinPath category (lstripDot extLower)
  else category

/-- Destination-subtree rule as amended: the extension subfolder is used
only when the extension stripped of its leading dots is also non-empty;
for an extension consisting only of dots (a name ending in a bare dot) the
destination is the bare category. -/
def claimRelPathAmended (cfg : SorterConfig) (category extLower : String) : String :=
  if category ≠ cfg.default_category ∧ extLower ≠ "" ∧ lstripDot extLower ≠ "" then
    joinPath category (lstripDot extLower)
  else category

/-- Counterexample to C3 as stated: map the extension `"."` (non-empty,
dot-initial, so accepted by `build_extension_map`) to category `"C"`.
For the file `"foo."` the code computes relative path `"C"`, while the
claim's rule yields `"C/"` (category joined with the empty
extension-without-dot), and the two differ. -/
theorem claim_C3_counterexample :
    categorize_file ⟨[("C", ["."])], "_Unsortiert", [], []⟩ "foo."
        = some ("C", "C") ∧
    claimRelPath ⟨[("C", ["."])], "_Unsortiert", [], []⟩ "C" (extLowerOf "foo.")
        = "C/" ∧
    ("C" : String) ≠ "C/" := by decide

/-- Claim C3 (amended): for every non-excluded file, the relative
destination path follows `claimRelPathAmended`: the
`category/extension-without-dot` subtree requires the category to differ
from the default, the extension to be non-empty, and the extension
stripped of leading dots to be non-empty; otherwise the destination is the
category alone. -/
theorem claim_C3_destination_layout (cfg : SorterConfig) (path : String)
    (cat rel : String) (h : categorize_file cfg path = some (cat, rel)) :
    rel = claimRelPathAmended cfg cat (extLowerOf path) := by
  simp only [categorize_file] at h
  by_cases hex : extLowerOf path ∈ cfg.excluded_extensions
  · rw [if_pos hex] at h
    exact absurd h (by simp)
  · rw [if_neg hex] at h
    rw [Option.some.injEq, Prod.mk.injEq] at h
    obtain ⟨h1, h2⟩ := h
    rw [← h1, ← h2]
    unfold claimRelPathAmended
    split_ifs with a b c <;> first | rfl | (exfalso; tauto)

/-- Witness for the amended C3 at a mapped extension. -/
theorem claim_C3_destination_layout_witness :
    categorize_file cfgW "/s/x.JPG" = some ("Bilder", "Bilder/jpg") ∧
    ("Bilder/jpg" : String) = claimRelPathAmended cfgW "Bilder" (extLowerOf "/s/x.JPG") :=
  ⟨by decide,
   claim_C3_destination_layout cfgW "/s/x.JPG" "Bilder" "Bilder/jpg" (by decide)⟩

/-! ### Directory discovery (`FileSorter.discover_files`, claim C1)

The source tree is modelled as a rose tree of named directories with file
name lists.  `os.walk(source, topdown=True)` visits a directory, lets the
caller prune `dirs` in place, and then recurses into the surviving
subdirectories in order; `discover_files` prunes every subdirectory whose
lower-cased name is in `excluded_folders` and skips the file list of any
visited directory whose absolute path string starts with the target path
(`root_abs.startswith(target_abs)` on line 53 of `file_sorter.py`). -/

mutual
inductive FSTree where
  | node (dirs : List FSDir) (files : List String)
inductive FSDir where
  | mk (name : String) (tree : FSTree)
end

/-- Name of a subdirectory entry. -/
def FSDir.name : FSDir → String
  | .mk n _ => n

mutual
/-- Model of `FileSorter.discover_files` on the subtree rooted at absolute
path `root`: prune excluded subdirectories (they are never recursed into),
skip the files of directories whose path starts with the target path, and
collect everything else in top-down walk order.  The in-place pruning
`dirs[:] = [d for d in dirs if d.lower() not in excluded_folders]`
followed by the walk's recursion into the surviving entries is expressed
as a per-entry guard in `discoverList`, which yields the same traversal. -/
def discover_files (cfg : SorterConfig) (target_abs root : String) : FSTree → List String
  | .node dirs files =>
    (if pyStartsWith root target_abs then []
     else files.map (fun fn => joinPath root fn))
      ++ discoverList cfg target_abs root dirs

/-- Walk the subdirectory entries in order, never entering pruned ones. -/
def discoverList (cfg : SorterConfig) (target_abs root : String) : List FSDir → List String
  | [] => []
  | .mk name tree :: ds =>
    (if pyLower name ∈ cfg.excluded_folders then []
     else discover_files cfg target_abs (joinPath root name) tree)
      ++ discoverList cfg target_abs root ds
end

/-- Directory-path test exactly as claim C1 words it: the directory lies
inside the target tree (it is the target or below it). -/
def insideTargetTree (target_abs root : String) : Bool :=
  root == target_abs || pyStartsWith root (target_abs ++ "/")

mutual
/-- File list described by claim C1, parameterised by the `inside` test on
directory paths: every file of the tree whose directory is not `inside`
and has no ancestor directory (strictly below the source root, recorded in
`anc`) with an excluded lower-cased base name. -/
def specFilesT (inside : String → Bool) (cfg : SorterConfig) (root : String)
    (anc : List String) : FSTree → List String
  | .node dirs files =>
    (if inside root || anc.any (fun n => decide (pyLower n ∈ cfg.excluded_folders)) then []
     else files.map (fun fn => joinPath root fn))
      ++ specFilesL inside cfg root anc dirs

/-- Claimed file list of a list of subdirectory entries. -/
def specFilesL (inside : String → Bool) (cfg : SorterConfig) (root : String)
    (anc : List String) : List FSDir → List String
  | [] => []
  | .mk name tree :: ds =>
    specFilesT inside cfg (joinPath root name) (anc ++ [name]) tree
      ++ specFilesL inside cfg root anc ds
end

mutual
theorem specFilesT_excluded (inside : String → Bool) (cfg : SorterConfig) :
    ∀ (root : String) (anc : List String) (t : FSTree),
      anc.any (fun n => decide (pyLower n ∈ cfg.excluded_folders)) = true →
      specFilesT inside cfg root anc t = []
  | root, anc, .node dirs files, h => by
    rw [specFilesT, if_pos (by simp [h])]
    rw [List.nil_append]
    exact specFilesL_excluded inside cfg root anc dirs h

theorem specFilesL_excluded (inside : String → Bool) (cfg : SorterConfig) :
    ∀ (root : String) (anc : List String) (ds : List FSDir),
      anc.any (fun n => decide (pyLower n ∈ cfg.excluded_folders)) = true →
      specFilesL inside cfg root anc ds = []
  | _, _, [], _ => rfl
  | root, anc, .mk name tree :: ds, h => by
    rw [specFilesL]
    rw [specFilesT_excluded inside cfg (joinPath root name) (anc ++ [name]) tree
      (by rw [List.any_append, h, Bool.true_or])]
    rw [specFilesL_excluded inside cfg root anc ds h]
    rfl
end

mutual
theorem discover_eq_specT (cfg : SorterConfig) (target : String) :
    ∀ (root : String) (anc : List String) (t : FSTree),
      anc.any (fun n => decide (pyLower n ∈ cfg.excluded_folders)) = false →
      discover_files cfg target root t
        = specFilesT (fun r => pyStartsWith r target) cfg root anc t
  | root, anc, .node dirs files, h => by
    rw [discover_files, specFilesT]
    have hcond : (pyStartsWith root target
        || anc.any (fun n => decide (pyLower n ∈ cfg.excluded_folders)))
        = pyStartsWith root target := by
      rw [h, Bool.or_false]
    rw [hcond]
    rw [discover_eq_specL cfg target root anc dirs h]

theorem discover_eq_specL (cfg : SorterConfig) (target : String) :
    ∀ (root : String) (anc : List String) (ds : List FSDir),
      anc.any (fun n => decide (pyLower n ∈ cfg.excluded_folders)) = false →
      discoverList cfg target root ds
        = specFilesL (fun r => pyStartsWith r target) cfg root anc ds
  | _, _, [], _ => rfl
  | root, anc, .mk name tree :: ds, h => by
    rw [discoverList, specFilesL]
    by_cases hex : pyLower name ∈ cfg.excluded_folders
    · rw [if_pos hex]
      rw [specFilesT_excluded _ cfg (joinPath root name) (anc ++ [name]) tree
        (by simp [hex])]
      rw [discover_eq_specL cfg target root anc ds h]
    · rw [if_neg hex]
      rw [discover_eq_specT cfg target (joinPath root name) (anc ++ [name]) tree
        (by simp at h ⊢; tauto)]
      rw [discover_eq_specL cfg target root anc ds h]
end

/-- Empty configuration used in the C1 counterexample. -/
def cfgE : SorterConfig := ⟨[], "_Unsortiert", [], []⟩

/-- Source tree used in the C1 counterexample: one subdirectory `tx`
holding one file `f`. -/
def treeW : FSTree := .node [.mk "tx" (.node [] ["f"])] []

/-- Counterexample to C1 as stated: with target `/s/t` and source `/s`,
the sibling directory `/s/tx` does not lie inside the target tree, so the
claim requires its file `/s/tx/f` in the result; but the code's string
test `"/s/tx".startswith("/s/t")` is true, so `discover_files` omits it
and returns the empty list. -/
theorem claim_C1_counterexample :
    specFilesT (fun r => insideTargetTree "/s/t" r) cfgE "/s" [] treeW = ["/s/tx/f"] ∧
    discover_files cfgE "/s/t" "/s" treeW = [] := by
  constructor <;> rfl

/-- Claim C1 (amended): `discover_files(source, target)` returns exactly
the files of the source tree that (a) are not beneath any directory whose
lower-cased base name is in `excluded_folders`, at any depth, and (b) are
not in a directory whose absolute path string starts with the target's
absolute path — the code compares paths with `str.startswith`, so sibling
directories whose path merely extends the target's path string are also
skipped; no file outside those two exclusions is omitted, and files appear
in top-down walk order. -/
theorem claim_C1_discover_files (cfg : SorterConfig) (target_abs root : String) (t : FSTree) :
    discover_files cfg target_abs root t
      = specFilesT (fun r => pyStartsWith r target_abs) cfg root [] t :=
  discover_eq_specT cfg target_abs root [] t rfl

/-! ### Character and string lemmas for the configuration round trip -/

set_option maxRecDepth 100000 in
theorem lowerPairs_facts :
    ∀ p ∈ lowerPairs,
      lowerChar p.2 = p.2 ∧ p.2 ≠ '.' ∧ pyIsSpace p.1 = false ∧ pyIsSpace p.2 = false := by
  decide

theorem lowerChar_of_find_none {c : Char}
    (h : lowerPairs.find? (fun p => p.1 = c) = none) : lowerChar c = c := by
  simp [lowerChar, h]

theorem lowerChar_of_find_some {c : Char} {p : Char × Char}
    (h : lowerPairs.find? (fun q => q.1 = c) = some p) : lowerChar c = p.2 := by
  simp [lowerChar, h]

theorem lowerChar_idem (c : Char) : lowerChar (lowerChar c) = lowerChar c := by
  cases h : lowerPairs.find? (fun q => q.1 = c) with
  | none => simp [lowerChar_of_find_none h]
  | some p =>
    have hmem := List.mem_of_find?_eq_some h
    rw [lowerChar_of_find_some h]
    exact (lowerPairs_facts p hmem).1

theorem pyIsSpace_lowerChar (c : Char) : pyIsSpace (lowerChar c) = pyIsSpace c := by
  cases h : lowerPairs.find? (fun q => q.1 = c) with
  | none => rw [lowerChar_of_find_none h]
  | some p =>
    have hmem := List.mem_of_find?_eq_some h
    have hc : p.1 = c := by simpa using List.find?_some h
    rw [lowerChar_of_find_some h, (lowerPairs_facts p hmem).2.2.2, ← hc,
      (lowerPairs_facts p hmem).2.2.1]

theorem lowerChar_dot_iff (c : Char) : lowerChar c = '.' ↔ c = '.' := by
  constructor
  · intro h
    cases hf : lowerPairs.find? (fun q => q.1 = c) with
    | none => rw [lowerChar_of_find_none hf] at h; exact h
    | some p =>
      rw [lowerChar_of_find_some hf] at h
      exact absurd h (lowerPairs_facts p (List.mem_of_find?_eq_some hf)).2.1
  · rintro rfl; decide

theorem pyLower_idem (s : String) : pyLower (pyLower s) = pyLower s := by
  have h : (lowerChar ∘ lowerChar) = lowerChar := funext lowerChar_idem
  simp [pyLower, List.map_map, h]

theorem pyLower_length (s : String) : (pyLower s).length = s.length := by
  show (s.data.map lowerChar).length = s.data.length
  simp

theorem pyStartsWith_dot_pyLower (s : String) :
    pyStartsWith (pyLower s) "." = pyStartsWith s "." := by
  simp only [pyStartsWith, pyLower]
  show List.isPrefixOf ['.'] (s.data.map lowerChar) = List.isPrefixOf ['.'] s.data
  cases hd : s.data with
  | nil => rfl
  | cons c t =>
    simp only [List.map_cons, List.isPrefixOf, Bool.and_true]
    by_cases hc : c = '.'
    · subst hc; rfl
    · have h2 : lowerChar c ≠ '.' := fun h => hc ((lowerChar_dot_iff c).mp h)
      rw [beq_eq_false_iff_ne.mpr (Ne.symm h2), beq_eq_false_iff_ne.mpr (Ne.symm hc)]

theorem dropWhile_dropWhile (p : Char → Bool) (l : List Char) :
    (l.dropWhile p).dropWhile p = l.dropWhile p := by
  induction l with
  | nil => rfl
  | cons a t ih =>
    by_cases h : p a
    · simp [List.dropWhile_cons, h, ih]
    · simp [List.dropWhile_cons, h]

theorem dropWhile_eq_self_of_isPrefixOf {p : Char → Bool} {y l : List Char}
    (hy : y <+: l) (hl : l.dropWhile p = l) : y.dropWhile p = y := by
  cases y with
  | nil => rfl
  | cons a t =>
    obtain ⟨r, hr⟩ := hy
    have hpa : p a = false := by
      rw [← hr] at hl
      by_contra hpa'
      have hpa : p a = true := by simpa using hpa'
      rw [List.cons_append, List.dropWhile_cons, if_pos hpa] at hl
      have hlen := congrArg List.length hl
      rw [List.length_cons] at hlen
      have hle : ((t ++ r).dropWhile p).length ≤ (t ++ r).length :=
        (List.dropWhile_suffix p).length_le
      omega
    rw [List.dropWhile_cons, if_neg (by simp [hpa])]

theorem stripData_idem (l : List Char) : stripData (stripData l) = stripData l := by
  have h1 : (stripData l).reverse = (l.dropWhile pyIsSpace).reverse.dropWhile pyIsSpace := by
    simp [stripData]
  have hpre : stripData l <+: l.dropWhile pyIsSpace := by
    rw [← List.reverse_suffix]
    rw [h1]
    exact List.dropWhile_suffix pyIsSpace
  have h2 : (stripData l).dropWhile pyIsSpace = stripData l :=
    dropWhile_eq_self_of_isPrefixOf hpre (dropWhile_dropWhile pyIsSpace l)
  show ((((stripData l).dropWhile pyIsSpace).reverse.dropWhile pyIsSpace).reverse : List Char)
      = stripData l
  rw [h2, h1, dropWhile_dropWhile, ← h1, List.reverse_reverse]

theorem stripData_map_lowerChar (l : List Char) :
    stripData (l.map lowerChar) = (stripData l).map lowerChar := by
  have hp : (pyIsSpace ∘ lowerChar) = pyIsSpace := funext pyIsSpace_lowerChar
  show ((((l.map lowerChar).dropWhile pyIsSpace).reverse.dropWhile pyIsSpace).reverse : List Char)
      = ((l.dropWhile pyIsSpace).reverse.dropWhile pyIsSpace).reverse.map lowerChar
  rw [List.dropWhile_map, hp, ← List.map_reverse, List.dropWhile_map, hp, List.map_reverse]

theorem pyStrip_pyLower_pyStrip (s : String) :
    pyStrip (pyLower (pyStrip s)) = pyLower (pyStrip s) := by
  show (⟨stripData ((stripData s.data).map lowerChar)⟩ : String)
      = ⟨(stripData s.data).map lowerChar⟩
  rw [stripData_map_lowerChar, stripData_idem]

theorem pyLower_pyStrip_ne_empty {s : String} (h : pyStrip s ≠ "") :
    pyLower (pyStrip s) ≠ "" := by
  intro hc
  apply h
  have hd : ((pyStrip s).data.map lowerChar) = [] := congrArg String.data hc
  have hnil : (pyStrip s).data = [] := List.map_eq_nil_iff.mp hd
  exact String.ext hnil

/-! ### Configuration documents (`config_models.py`, claim C6) -/

/-- Untyped JSON values: the shape `json.load` hands to
`ConfigManager._validate_config_data`. -/
inductive JValue where
  | jnull
  | jbool (b : Bool)
  | jnum (n : Int)
  | jstr (s : String)
  | jarr (items : List JValue)
  | jobj (fields : List (String × JValue))

/-- First binding of a key among an object's fields. -/
def jfind? (k : String) : List (String × JValue) → Option JValue
  | [] => none
  | p :: t => if p.1 = k then some p.2 else jfind? k t

/-- Model of `data.get(key, dflt)` on a parsed JSON object. -/
def jgetD (fields : List (String × JValue)) (k : String) (dflt : JValue) : JValue :=
  match jfind? k fields with
  | some v => v
  | none => dflt

/-- Keys of an object are pairwise distinct, as `json.load` guarantees for
a well-formed document. -/
def keysNodup : List (String × JValue) → Bool
  | [] => true
  | (k, _) :: t => decide (¬ k ∈ t.map Prod.fst) && keysNodup t

/-- Well-formed configuration document: a JSON object with distinct keys
whose `Kategorien` entry, when an object, also has distinct keys. -/
def jwf : JValue → Bool
  | .jobj fields =>
    keysNodup fields &&
    (match jfind? "Kategorien" fields with
     | some (.jobj g) => keysNodup g
     | _ => true)
  | _ => false

/-- Extension acceptance test of `ConfigValidator`: a string starting with
a dot and longer than one character. -/
def validExt (s : String) : Bool := pyStartsWith s "." && decide (s.length > 1)

/-- Surviving lower-cased extension of one JSON entry of a category list
(the body of the inner loop of `validate_categories`). -/
def extFromJ (e : JValue) : Option String :=
  match e with
  | .jstr s => if validExt s then some (pyLower s) else none
  | _ => none

/-- One step of the `validate_categories` loop (lines 63–77 of
`config_models.py`): keep list-valued entries whose surviving extensions
are non-empty, assigning into the result dict. -/
def valcatStep (validated : List (String × List String)) (p : String × JValue) :
    List (String × List String) :=
  match p.2 with
  | .jarr exts =>
    let valid_extensions := exts.filterMap extFromJ
    if valid_extensions ≠ [] then dinsert p.1 valid_extensions validated
    else validated
  | _ => validated

/-- Model of `ConfigValidator.validate_categories`. -/
def validate_categories (j : JValue) : List (String × List String) :=
  match j with
  | .jobj fields => fields.foldl valcatStep []
  | _ => []

/-- One step of the `validate_extensions` loop: add the lower-cased
extension to the set when it is an acceptable string. -/
def valextStep (validated : List String) (e : JValue) : List String :=
  match e with
  | .jstr s => if validExt s then sinsert (pyLower s) validated else validated
  | _ => validated

/-- Model of `ConfigValidator.validate_extensions`. -/
def validate_extensions (j : JValue) : List String :=
  match j with
  | .jarr items => items.foldl valextStep []
  | _ => []

/-- One step of the `validate_folders` loop: add the stripped, lower-cased
folder name when the string is non-blank. -/
def valfolStep (validated : List String) (e : JValue) : List String :=
  match e with
  | .jstr s => if pyStrip s ≠ "" then sinsert (pyLower (pyStrip s)) validated
               else validated
  | _ => validated

/-- Model of `ConfigValidator.validate_folders`. -/
def validate_folders (j : JValue) : List String :=
  match j with
  | .jarr items => items.foldl valfolStep []
  | _ => []

/-- Model of `ConfigManager._validate_config_data`: validate each section,
replacing a missing, non-string or blank default category by
`"_Unsortiert"`; a non-object document degrades to the empty default
configuration `SorterConfig()`. -/
def validate_config_data (d : JValue) : SorterConfig :=
  match d with
  | .jobj fields =>
    { categories := validate_categories (jgetD fields "Kategorien" (.jobj [])),
      default_category :=
        match jfind? "StandardKategorie" fields with
        | some (.jstr s) => if pyStrip s ≠ "" then s else "_Unsortiert"
        | some _ => "_Unsortiert"
        | none => "_Unsortiert",
      excluded_extensions :=
        validate_extensions (jgetD fields "AusgeschlosseneEndungen" (.jarr [])),
      excluded_folders :=
        validate_folders (jgetD fields "AusgeschlosseneOrdner" (.jarr [])) }
  | _ => ⟨[], "_Unsortiert", [], []⟩

/-- Model of Python `sorted` on a list of strings. -/
def pysorted (l : List String) : List String :=
  l.mergeSort (fun a b => decide (a ≤ b))

/-- Model of `SorterConfig.to_dict` (the serialization behind
`to_document`): categories as-is, default category as-is, exclusion sets
as sorted lists. -/
def to_dict (cfg : SorterConfig) : JValue :=
  .jobj
    [("Kategorien",
      .jobj (cfg.categories.map (fun p => (p.1, JValue.jarr (p.2.map .jstr))))),
     ("StandardKategorie", .jstr cfg.default_category),
     ("AusgeschlosseneEndungen",
      .jarr ((pysorted cfg.excluded_extensions).map .jstr)),
     ("AusgeschlosseneOrdner",
      .jarr ((pysorted cfg.excluded_folders).map .jstr))]

/-- Sample document exercising the validator's dropping and lower-casing. -/
def docW : JValue :=
  .jobj
    [("Kategorien",
      .jobj [("Bilder", .jarr [.jstr ".JPG", .jstr "png", .jnum 3]),
             ("Leer", .jarr [.jstr "x"])]),
     ("StandardKategorie", .jstr "Rest"),
     ("AusgeschlosseneEndungen", .jarr [.jstr ".TMP", .jstr "x"]),
     ("AusgeschlosseneOrdner", .jarr [.jstr "  Temp ", .jnull])]

example : (validate_config_data docW).categories = [("Bilder", [".jpg"])] := by decide
example : (validate_config_data docW).default_category = "Rest" := by decide
example : (validate_config_data docW).excluded_extensions = [".tmp"] := by decide
example : (validate_config_data docW).excluded_folders = ["temp"] := by decide
example : jwf docW = true := by decide

theorem mem_sinsert {x y : String} {s : List String} :
    x ∈ sinsert y s ↔ x = y ∨ x ∈ s := by
  unfold sinsert
  by_cases h : y ∈ s
  · rw [if_pos h]
    constructor
    · exact Or.inr
    · rintro (rfl | hx)
      · exact h
      · exact hx
  · rw [if_neg h]
    simp [List.mem_append, or_comm]

theorem mem_dinsert {α : Type} {p : String × α} {k : String} {v : α} :
    ∀ {d : List (String × α)}, p ∈ dinsert k v d → p = (k, v) ∨ p ∈ d := by
  intro d
  induction d with
  | nil => intro h; simp [dinsert] at h; exact Or.inl h
  | cons q t ih =>
    intro h
    rw [dinsert] at h
    by_cases hq : q.1 = k
    · rw [if_pos hq] at h
      rcases List.mem_cons.mp h with h | h
      · exact Or.inl h
      · exact Or.inr (List.mem_cons_of_mem q h)
    · rw [if_neg hq] at h
      rcases List.mem_cons.mp h with h | h
      · exact Or.inr (h ▸ List.mem_cons_self q t)
      · rcases ih h with h | h
        · exact Or.inl h
        · exact Or.inr (List.mem_cons_of_mem q h)

theorem keys_dinsert {α : Type} (k : String) (v : α) :
    ∀ d : List (String × α),
      (dinsert k v d).map Prod.fst =
        if k ∈ d.map Prod.fst then d.map Prod.fst else d.map Prod.fst ++ [k] := by
  intro d
  induction d with
  | nil => simp [dinsert]
  | cons q t ih =>
    rw [dinsert]
    by_cases hq : q.1 = k
    · rw [if_pos hq]
      have : k ∈ (q :: t).map Prod.fst := by simp [hq.symm]
      rw [if_pos this]
      simp [hq]
    · rw [if_neg hq]
      by_cases hk : k ∈ t.map Prod.fst
      · have h1 : k ∈ (q :: t).map Prod.fst := by simp [hk]
        rw [if_pos h1]
        simp [ih, hk]
      · have h1 : ¬ k ∈ (q :: t).map Prod.fst := by
          simp [hk]
          exact fun hkq => hq hkq.symm
        rw [if_neg h1]
        simp [ih, hk]

theorem dinsert_append {α : Type} {k : String} (v : α) :
    ∀ {d : List (String × α)}, ¬ k ∈ d.map Prod.fst → dinsert k v d = d ++ [(k, v)] := by
  intro d
  induction d with
  | nil => intro _; rfl
  | cons q t ih =>
    intro h
    have hq : q.1 ≠ k := by
      intro hc; exact h (by simp [hc])
    rw [dinsert, if_neg hq, ih (fun hc => h (by simp [hc]))]
    simp

theorem validExt_pyLower (s : String) : validExt (pyLower s) = validExt s := by
  simp [validExt, pyStartsWith_dot_pyLower, pyLower_length]

theorem extFromJ_some {e : JValue} {x : String} (h : extFromJ e = some x) :
    validExt x = true ∧ pyLower x = x := by
  cases e <;> simp [extFromJ] at h
  case jstr s =>
    obtain ⟨hv, hx⟩ := h
    rw [← hx]
    exact ⟨by rw [validExt_pyLower]; exact hv, pyLower_idem s⟩

theorem filterMap_extFromJ_ident (l : List String)
    (h : ∀ s ∈ l, validExt s = true ∧ pyLower s = s) :
    (l.map JValue.jstr).filterMap extFromJ = l := by
  induction l with
  | nil => rfl
  | cons s t ih =>
    have hs := h s (List.mem_cons_self s t)
    simp only [List.map_cons, List.filterMap_cons]
    have he : extFromJ (.jstr s) = some s := by
      simp [extFromJ, hs.1, hs.2]
    rw [he, ih (fun a ha => h a (List.mem_cons_of_mem s ha))]

theorem valcat_fold_inv :
    ∀ (fields : List (String × JValue)) (acc : List (String × List String)),
      (∀ p ∈ acc, p.2 ≠ [] ∧ ∀ s ∈ p.2, validExt s = true ∧ pyLower s = s) →
      (acc.map Prod.fst).Nodup →
      (∀ p ∈ fields.foldl valcatStep acc,
          p.2 ≠ [] ∧ ∀ s ∈ p.2, validExt s = true ∧ pyLower s = s) ∧
      ((fields.foldl valcatStep acc).map Prod.fst).Nodup := by
  intro fields
  induction fields with
  | nil => intro acc h1 h2; exact ⟨h1, h2⟩
  | cons f rest ih =>
    intro acc h1 h2
    rw [List.foldl_cons]
    apply ih
    · intro p hp
      rw [valcatStep] at hp
      cases hm : f.2 with
      | jarr exts =>
        rw [hm] at hp
        dsimp only at hp
        by_cases hne : exts.filterMap extFromJ ≠ []
        · rw [if_pos hne] at hp
          rcases mem_dinsert hp with rfl | hp
          · refine ⟨hne, ?_⟩
            intro s hs
            obtain ⟨e, _, he⟩ := List.mem_filterMap.mp hs
            exact extFromJ_some he
          · exact h1 p hp
        · rw [if_neg hne] at hp
          exact h1 p hp
      | jnull => rw [hm] at hp; exact h1 p hp
      | jbool b => rw [hm] at hp; exact h1 p hp
      | jnum n => rw [hm] at hp; exact h1 p hp
      | jstr s => rw [hm] at hp; exact h1 p hp
      | jobj g => rw [hm] at hp; exact h1 p hp
    · rw [valcatStep]
      cases hm : f.2 with
      | jarr exts =>
        dsimp only
        by_cases hne : exts.filterMap extFromJ ≠ []
        · rw [if_pos hne, keys_dinsert]
          split_ifs with hk
          · exact h2
          · simp [List.nodup_append, h2, hk]
        · rw [if_neg hne]; exact h2
      | jnull => exact h2
      | jbool b => exact h2
      | jnum n => exact h2
      | jstr s => exact h2
      | jobj g => exact h2

theorem valext_fold_inv :
    ∀ (items : List JValue) (acc : List String),
      (∀ x ∈ acc, validExt x = true ∧ pyLower x = x) →
      ∀ x ∈ items.foldl valextStep acc, validExt x = true ∧ pyLower x = x := by
  intro items
  induction items with
  | nil => intro acc h; exact h
  | cons e rest ih =>
    intro acc h
    rw [List.foldl_cons]
    apply ih
    intro x hx
    cases e with
    | jstr s =>
      rw [valextStep] at hx
      by_cases hv : validExt s = true
      · rw [if_pos hv] at hx
        rcases mem_sinsert.mp hx with rfl | hx
        · exact ⟨by rw [validExt_pyLower]; exact hv, pyLower_idem s⟩
        · exact h x hx
      · rw [if_neg hv] at hx
        exact h x hx
    | jnull => exact h x hx
    | jbool b => exact h x hx
    | jnum n => exact h x hx
    | jarr l => exact h x hx
    | jobj g => exact h x hx

theorem valext_fold_mem (l : List String)
    (h : ∀ s ∈ l, validExt s = true ∧ pyLower s = s) :
    ∀ (acc : List String) (x : String),
      x ∈ (l.map JValue.jstr).foldl valextStep acc ↔ x ∈ acc ∨ x ∈ l := by
  induction l with
  | nil => intro acc x; simp
  | cons s t ih =>
    intro acc x
    have hs := h s (List.mem_cons_self s t)
    simp only [List.map_cons, List.foldl_cons]
    have hstep : valextStep acc (.jstr s) = sinsert s acc := by
      rw [valextStep]
      rw [if_pos hs.1, hs.2]
    rw [hstep, ih (fun a ha => h a (List.mem_cons_of_mem s ha))]
    rw [mem_sinsert]
    simp [List.mem_cons]
    tauto

theorem valfol_fold_inv :
    ∀ (items : List JValue) (acc : List String),
      (∀ x ∈ acc, pyStrip x = x ∧ pyLower x = x ∧ x ≠ "") →
      ∀ x ∈ items.foldl valfolStep acc, pyStrip x = x ∧ pyLower x = x ∧ x ≠ "" := by
  intro items
  induction items with
  | nil => intro acc h; exact h
  | cons e rest ih =>
    intro acc h
    rw [List.foldl_cons]
    apply ih
    intro x hx
    cases e with
    | jstr s =>
      rw [valfolStep] at hx
      by_cases hv : pyStrip s ≠ ""
      · rw [if_pos hv] at hx
        rcases mem_sinsert.mp hx with rfl | hx
        · exact ⟨pyStrip_pyLower_pyStrip s, pyLower_idem (pyStrip s),
            pyLower_pyStrip_ne_empty hv⟩
        · exact h x hx
      · rw [if_neg hv] at hx
        exact h x hx
    | jnull => exact h x hx
    | jbool b => exact h x hx
    | jnum n => exact h x hx
    | jarr l => exact h x hx
    | jobj g => exact h x hx

theorem valfol_fold_mem (l : List String)
    (h : ∀ s ∈ l, pyStrip s = s ∧ pyLower s = s ∧ s ≠ "") :
    ∀ (acc : List String) (x : String),
      x ∈ (l.map JValue.jstr).foldl valfolStep acc ↔ x ∈ acc ∨ x ∈ l := by
  induction l with
  | nil => intro acc x; simp
  | cons s t ih =>
    intro acc x
    have hs := h s (List.mem_cons_self s t)
    simp only [List.map_cons, List.foldl_cons]
    have hstep : valfolStep acc (.jstr s) = sinsert s acc := by
      rw [valfolStep]
      rw [if_pos (by rw [hs.1]; exact hs.2.2), hs.1, hs.2.1]
    rw [hstep, ih (fun a ha => h a (List.mem_cons_of_mem s ha))]
    rw [mem_sinsert]
    simp [List.mem_cons]
    tauto

theorem valcat_fold_enc :
    ∀ (cats : List (String × List String)) (acc : List (String × List String)),
      (∀ p ∈ cats, p.2 ≠ [] ∧ ∀ s ∈ p.2, validExt s = true ∧ pyLower s = s) →
      (cats.map Prod.fst).Nodup →
      (∀ k ∈ cats.map Prod.fst, ¬ k ∈ acc.map Prod.fst) →
      (cats.map (fun p => (p.1, JValue.jarr (p.2.map JValue.jstr)))).foldl valcatStep acc
        = acc ++ cats := by
  intro cats
  induction cats with
  | nil => intro acc _ _ _; simp
  | cons p rest ih =>
    intro acc hinv hnd hfresh
    have hp := hinv p (List.mem_cons_self p rest)
    rw [List.map_cons] at hnd
    obtain ⟨hp1, hrest⟩ := List.nodup_cons.mp hnd
    simp only [List.map_cons, List.foldl_cons]
    have hstep : valcatStep acc (p.1, JValue.jarr (p.2.map JValue.jstr))
        = acc ++ [(p.1, p.2)] := by
      rw [valcatStep]
      dsimp only
      rw [filterMap_extFromJ_ident p.2 hp.2, if_pos hp.1,
        dinsert_append p.2 (hfresh p.1 (by simp))]
    rw [hstep]
    rw [ih (acc ++ [(p.1, p.2)])
      (fun q hq => hinv q (List.mem_cons_of_mem p hq))
      hrest
      ?_]
    · simp
    · intro k hk
      have hk1 : k ∈ (p :: rest).map Prod.fst := by
        rw [List.map_cons]
        exact List.mem_cons_of_mem p.1 hk
      have hkacc : ¬ k ∈ acc.map Prod.fst := hfresh k hk1
      have hkp : k ≠ p.1 := by
        intro hc
        rw [hc] at hk
        exact hp1 hk
      simp [hkacc, hkp]

theorem validate_default_strip_ne (d : JValue) :
    pyStrip (validate_config_data d).default_category ≠ "" := by
  have hu : pyStrip "_Unsortiert" ≠ "" := by decide
  cases d with
  | jobj fields =>
    rw [validate_config_data]
    cases hf : jfind? "StandardKategorie" fields with
    | none => exact hu
    | some v =>
      cases v with
      | jstr s =>
        dsimp only
        by_cases hs : pyStrip s ≠ ""
        · rw [if_pos hs]; exact hs
        · rw [if_neg hs]; exact hu
      | jnull => exact hu
      | jbool b => exact hu
      | jnum n => exact hu
      | jarr l => exact hu
      | jobj g => exact hu
  | jnull => exact hu
  | jbool b => exact hu
  | jnum n => exact hu
  | jstr s => exact hu
  | jarr l => exact hu

theorem validate_categories_inv (j : JValue) :
    (∀ p ∈ validate_categories j,
        p.2 ≠ [] ∧ ∀ s ∈ p.2, validExt s = true ∧ pyLower s = s) ∧
    ((validate_categories j).map Prod.fst).Nodup := by
  cases j with
  | jobj fields => exact valcat_fold_inv fields [] (by simp) (by simp)
  | jnull => exact ⟨by simp [validate_categories], by simp [validate_categories]⟩
  | jbool b => exact ⟨by simp [validate_categories], by simp [validate_categories]⟩
  | jnum n => exact ⟨by simp [validate_categories], by simp [validate_categories]⟩
  | jstr s => exact ⟨by simp [validate_categories], by simp [validate_categories]⟩
  | jarr l => exact ⟨by simp [validate_categories], by simp [validate_categories]⟩

theorem validate_extensions_inv (j : JValue) :
    ∀ x ∈ validate_extensions j, validExt x = true ∧ pyLower x = x := by
  cases j with
  | jarr items => exact valext_fold_inv items [] (by simp)
  | jnull => simp [validate_extensions]
  | jbool b => simp [validate_extensions]
  | jnum n => simp [validate_extensions]
  | jstr s => simp [validate_extensions]
  | jobj g => simp [validate_extensions]

theorem validate_folders_inv (j : JValue) :
    ∀ x ∈ validate_folders j, pyStrip x = x ∧ pyLower x = x ∧ x ≠ "" := by
  cases j with
  | jarr items => exact valfol_fold_inv items [] (by simp)
  | jnull => simp [validate_folders]
  | jbool b => simp [validate_folders]
  | jnum n => simp [validate_folders]
  | jstr s => simp [validate_folders]
  | jobj g => simp [validate_folders]

theorem validate_to_dict (c : SorterConfig) :
    validate_config_data (to_dict c) =
      { categories := validate_categories
          (.jobj (c.categories.map (fun p => (p.1, JValue.jarr (p.2.map JValue.jstr))))),
        default_category :=
          if pyStrip c.default_category ≠ "" then c.default_category else "_Unsortiert",
        excluded_extensions :=
          validate_extensions (.jarr ((pysorted c.excluded_extensions).map JValue.jstr)),
        excluded_folders :=
          validate_folders (.jarr ((pysorted c.excluded_folders).map JValue.jstr)) } := rfl

theorem config_categories_inv (d : JValue) :
    (∀ p ∈ (validate_config_data d).categories,
        p.2 ≠ [] ∧ ∀ s ∈ p.2, validExt s = true ∧ pyLower s = s) ∧
    ((validate_config_data d).categories.map Prod.fst).Nodup := by
  cases d with
  | jobj fields =>
    rw [validate_config_data]
    exact validate_categories_inv _
  | jnull => exact ⟨by simp [validate_config_data], by simp [validate_config_data]⟩
  | jbool b => exact ⟨by simp [validate_config_data], by simp [validate_config_data]⟩
  | jnum n => exact ⟨by simp [validate_config_data], by simp [validate_config_data]⟩
  | jstr s => exact ⟨by simp [validate_config_data], by simp [validate_config_data]⟩
  | jarr l => exact ⟨by simp [validate_config_data], by simp [validate_config_data]⟩

theorem config_extensions_inv (d : JValue) :
    ∀ x ∈ (validate_config_data d).excluded_extensions,
      validExt x = true ∧ pyLower x = x := by
  cases d with
  | jobj fields =>
    rw [validate_config_data]
    exact validate_extensions_inv _
  | jnull => simp [validate_config_data]
  | jbool b => simp [validate_config_data]
  | jnum n => simp [validate_config_data]
  | jstr s => simp [validate_config_data]
  | jarr l => simp [validate_config_data]

theorem config_folders_inv (d : JValue) :
    ∀ x ∈ (validate_config_data d).excluded_folders,
      pyStrip x = x ∧ pyLower x = x ∧ x ≠ "" := by
  cases d with
  | jobj fields =>
    rw [validate_config_data]
    exact validate_folders_inv _
  | jnull => simp [validate_config_data]
  | jbool b => simp [validate_config_data]
  | jnum n => simp [validate_config_data]
  | jstr s => simp [validate_config_data]
  | jarr l => simp [validate_config_data]

/-- Claim C6: for every configuration produced by the validating loader
from a well-formed document, serializing with `to_dict` and re-validating
yields an equivalent configuration: identical categories (hence the same
effective extension map), the same default category, and the same two
exclusion sets. -/
theorem claim_C6_config_round_trip (d : JValue) (_hwf : jwf d = true) :
    (validate_config_data (to_dict (validate_config_data d))).categories
        = (validate_config_data d).categories ∧
    (∀ e dflt,
      dgetD (build_extension_map (validate_config_data (to_dict (validate_config_data d)))) e dflt
        = dgetD (build_extension_map (validate_config_data d)) e dflt) ∧
    (validate_config_data (to_dict (validate_config_data d))).default_category
        = (validate_config_data d).default_category ∧
    (∀ x, x ∈ (validate_config_data (to_dict (validate_config_data d))).excluded_extensions
        ↔ x ∈ (validate_config_data d).excluded_extensions) ∧
    (∀ x, x ∈ (validate_config_data (to_dict (validate_config_data d))).excluded_folders
        ↔ x ∈ (validate_config_data d).excluded_folders) := by
  have hcatsinv := config_categories_inv d
  have hextinv := config_extensions_inv d
  have hfolinv := config_folders_inv d
  have hcats : (validate_config_data (to_dict (validate_config_data d))).categories
      = (validate_config_data d).categories := by
    rw [validate_to_dict]
    dsimp only
    rw [validate_categories]
    rw [valcat_fold_enc (validate_config_data d).categories []
      hcatsinv.1 hcatsinv.2 (by simp)]
    simp
  have hbm : build_extension_map (validate_config_data (to_dict (validate_config_data d)))
      = build_extension_map (validate_config_data d) := by
    unfold build_extension_map
    rw [hcats]
  have hdef : (validate_config_data (to_dict (validate_config_data d))).default_category
      = (validate_config_data d).default_category := by
    rw [validate_to_dict]
    dsimp only
    rw [if_pos (validate_default_strip_ne d)]
  have hexts : ∀ x,
      x ∈ (validate_config_data (to_dict (validate_config_data d))).excluded_extensions
        ↔ x ∈ (validate_config_data d).excluded_extensions := by
    intro x
    rw [validate_to_dict]
    dsimp only
    rw [validate_extensions]
    rw [valext_fold_mem (pysorted (validate_config_data d).excluded_extensions)
      (fun s hs => hextinv s (List.mem_mergeSort.mp hs)) [] x]
    simp [pysorted]
  have hfols : ∀ x,
      x ∈ (validate_config_data (to_dict (validate_config_data d))).excluded_folders
        ↔ x ∈ (validate_config_data d).excluded_folders := by
    intro x
    rw [validate_to_dict]
    dsimp only
    rw [validate_folders]
    rw [valfol_fold_mem (pysorted (validate_config_data d).excluded_folders)
      (fun s hs => hfolinv s (List.mem_mergeSort.mp hs)) [] x]
    simp [pysorted]
  exact ⟨hcats, fun e dflt => by rw [hbm], hdef, hexts, hfols⟩

/-- Witness for C6 at a concrete well-formed document. -/
theorem claim_C6_config_round_trip_witness :
    jwf docW = true ∧
    ((validate_config_data (to_dict (validate_config_data docW))).categories
        = (validate_config_data docW).categories) ∧
    ((validate_config_data (to_dict (validate_config_data docW))).default_category
        = (validate_config_data docW).default_category) :=
  ⟨by decide, (claim_C6_config_round_trip docW (by decide)).1,
   (claim_C6_config_round_trip docW (by decide)).2.2.1⟩

/-! ### Saving the configuration (`ConfigManager.save_config`, claim C7)

`save_config` (lines 142–150 of `config_models.py`) executes
`with open(self.config_file, 'w') as f: json.dump(config.to_dict(), f, ...)`
inside a `try` whose `except Exception` handler logs and returns `False`.
Mode `'w'` truncates the file in place before anything is written, and
`json.dump` streams the serialized text directly into it; there is no
temporary file and no replace step.  The model makes that write sequence
explicit: the environment picks whether the open fails (nothing was
truncated yet, the file keeps its previous content), the dump fails after
some prefix of the serialization has been written (the file holds exactly
that prefix), or everything succeeds.  `renderConfig` stands in for the
text `json.dump` produces for `to_dict`'s document; its exact whitespace
is immaterial to the claim. -/

/-- Content of the configuration file. -/
inductive FileState where
  | absent
  | written (content : String)
  deriving DecidableEq

/-- Failure injected by the environment into one `save_config` call. -/
inductive SaveWorld where
  | ok
  | failOpen (e : String)
  | failWrite (k : Nat) (e : String)

/-- Render a JSON string (escaping is immaterial here). -/
def jstrQ (s : String) : String := "\"" ++ s ++ "\""

/-- Render a JSON array of strings. -/
def renderStrList (l : List String) : String :=
  "[" ++ String.intercalate ", " (l.map jstrQ) ++ "]"

/-- Render the categories object. -/
def renderCats (cats : List (String × List String)) : String :=
  "\x7b" ++ String.intercalate ", "
      (cats.map (fun p => jstrQ p.1 ++ ": " ++ renderStrList p.2)) ++ "\x7d"

/-- Text `json.dump` writes for `to_dict cfg` (whitespace simplified). -/
def renderConfig (cfg : SorterConfig) : String :=
  "\x7b\"Kategorien\": " ++ renderCats cfg.categories
    ++ ", \"StandardKategorie\": " ++ jstrQ cfg.default_category
    ++ ", \"AusgeschlosseneEndungen\": " ++ renderStrList (pysorted cfg.excluded_extensions)
    ++ ", \"AusgeschlosseneOrdner\": " ++ renderStrList (pysorted cfg.excluded_folders)
    ++ "\x7d"

/-- Model of `ConfigManager.save_config`: the resulting file state, the
returned boolean, and the logged messages.  Every exception is caught;
none propagates. -/
def save_config (cfg : SorterConfig) (old : FileState) (w : SaveWorld) :
    FileState × Bool × List String :=
  match w with
  | .ok => (.written (renderConfig cfg), true, [])
  | .failOpen e => (old, false, ["FEHLER Speichern Config: " ++ e])
  | .failWrite k e =>
      (.written ((renderConfig cfg).take k), false, ["FEHLER Speichern Config: " ++ e])

/-- Counterexample to C7 as stated: a failure one character into the dump
leaves the file holding the single character `{` — neither the previous
content `OLD` nor the new serialization — so a mid-write failure does
leave a half-written file and the previous content is lost. -/
theorem claim_C7_counterexample :
    (save_config cfgE (.written "OLD") (.failWrite 1 "disk full")).1
        = .written "\x7b" ∧
    (save_config cfgE (.written "OLD") (.failWrite 1 "disk full")).1
        ≠ .written "OLD" ∧
    (save_config cfgE (.written "OLD") (.failWrite 1 "disk full")).1
        ≠ .written (renderConfig cfgE) ∧
    (save_config cfgE (.written "OLD") (.failWrite 1 "disk full")).2.1 = false := by
  refine ⟨by decide, by decide, by decide, by decide⟩

/-- Claim C7 (amended): `save_config` returns a boolean result and never
raises — every failure is caught, logged, and reported as `False` — but
the write is in place, not write-then-replace: only a failure to open
leaves the previous file content unchanged, while a failure during the
dump leaves the file truncated to a prefix of the new serialization. -/
theorem claim_C7_save_config (cfg : SorterConfig) (old : FileState) (w : SaveWorld) :
    ((save_config cfg old w).2.1 = true ↔ w = .ok) ∧
    ((save_config cfg old w).2.1 = false → (save_config cfg old w).2.2 ≠ []) ∧
    (∀ e, w = .failOpen e → (save_config cfg old w).1 = old) ∧
    (∀ k e, w = .failWrite k e →
        (save_config cfg old w).1 = .written ((renderConfig cfg).take k)) ∧
    (w = .ok → (save_config cfg old w).1 = .written (renderConfig cfg)) := by
  cases w with
  | ok => simp [save_config]
  | failOpen e => simp [save_config]
  | failWrite k e => simp [save_config]

/-- Witness for the amended C7 at concrete failure worlds. -/
theorem claim_C7_save_config_witness :
    (SaveWorld.failOpen "permission denied" = SaveWorld.failOpen "permission denied") ∧
    (save_config cfgE (.written "OLD") (.failOpen "permission denied")).1
        = .written "OLD" ∧
    ((save_config cfgE (.written "OLD") (.failOpen "permission denied")).2.1 = false →
      (save_config cfgE (.written "OLD") (.failOpen "permission denied")).2.2 ≠ []) :=
  ⟨rfl,
   (claim_C7_save_config cfgE (.written "OLD") (.failOpen "permission denied")).2.2.1
     "permission denied" rfl,
   (claim_C7_save_config cfgE (.written "OLD") (.failOpen "permission denied")).2.1⟩
